import Mathlib

/-!
Verification development for the wow-lua-error-loader crash-file pipeline.

The TypeScript sources are shallowly embedded as Lean definitions:

* `tsmCreateTree`   — `TSMCrashFileParser.createTree` (indentation tree builder);
  the mutable `parent`-pointer walk is represented by an explicit stack of open
  nodes (the chain root → … → `currentNode`), which is exactly the set of nodes
  the source ever re-reads through `parent` links.
* `blizzardCreateTree` — `BlizzardCrashFileParser.createTree`.
* `parseLocalVar`, `tsmGetCrashInfo` — `TSMCrashFileParser` value decoding and
  interpretation.
* `blizzardGetCrashInfo` — `BlizzardCrashFileParser.getCrashInfo`.
* `Registry` — the variable-handle registry (`Handles` of the
  vscode-debugadapter dependency; modelled from the spec, see its doc comment).
* `handleVariable`, `mkLocalVariable`, `cmpVars`, `jsSortVariables` — the
  variable-presentation helpers of `LuaDebugSession`.

JavaScript machine doubles are idealized as exact decimal fractions
(`man / 10 ^ exp`, kept in lowest decimal terms): every number manipulated by
the sources comes from short decimal literals in crash files, where the two
agree.  `NaN` is represented by `Option` (`none`), the infinities by an
explicit constructor.  JS strings are treated as their character lists
(identical to UTF-16 order on the BMP, which covers the ASCII crash dumps this
program consumes).  Thrown `Error(msg)` values become an `Except` error
carrying the message, tagged with the spec's error taxonomy according to the
throw site.
-/

deriving instance DecidableEq for Except

/-- Error taxonomy of the spec (§7); each constructor carries the message text
of the `Error` thrown at the corresponding source site. -/
inductive ParseErr where
  | malformedIndentation (msg : String)
  | unknownCrashSection (msg : String)
  | unrecognizedFrameSyntax (msg : String)
  | malformedStackHeader (msg : String)
  | unrecognizedValueSyntax (msg : String)
  | incompleteCrashInfo (msg : String)
  | invalidVariableReference (msg : String)
  | typeError (msg : String)
deriving DecidableEq, Repr

/-- Exact decimal fraction `man / 10 ^ exp`.  Values are kept normalized
(`exp` minimal), so structural equality is value equality. -/
structure Dec where
  man : Int
  exp : Nat
deriving DecidableEq, Repr

/-- Rational value of a `Dec` (used in proofs only). -/
def Dec.toQ (d : Dec) : ℚ := (d.man : ℚ) / (10 : ℚ) ^ d.exp

/-- Normalize a decimal fraction by cancelling factors of ten. -/
def normDec (man : Int) : Nat → Dec
  | 0 => ⟨man, 0⟩
  | e + 1 =>
    if man % 10 = 0 then normDec (man / 10) e else ⟨man, e + 1⟩

/-- A JavaScript number that is not `NaN`: an exact decimal or an infinity.
`NaN` is represented as `none` in `Option JsNum` results. -/
inductive JsNum where
  | finite (d : Dec)
  | infinite (neg : Bool)
deriving DecidableEq, Repr

/-- Embed an integer as a `JsNum`. -/
def JsNum.int (n : Int) : JsNum := .finite ⟨n, 0⟩

/-- JS whitespace accepted by `parseFloat` / `Number` (ASCII subset). -/
def jsWhite (c : Char) : Bool :=
  c = ' ' || c = '\t' || c = '\n' || c = '\r'

/-- Numeric value of a list of decimal digit characters. -/
def digitsToNat (ds : List Char) : Nat :=
  ds.foldl (fun a c => a * 10 + (c.toNat - '0'.toNat)) 0

/-- Mantissa/exponent to decimal: `(intDigits . fracDigits) * 10 ^ e`. -/
def decimalToDec (intDs fracDs : List Char) (e : Int) (neg : Bool) : Dec :=
  let mant : Int := (digitsToNat (intDs ++ fracDs) : Int)
  let mant := if neg then -mant else mant
  let k : Int := e - (fracDs.length : Int)
  if 0 ≤ k then ⟨mant * 10 ^ k.toNat, 0⟩ else normDec mant (-k).toNat

/-- Optional exponent part `[eE][+-]?digits` of a JS decimal literal; returns
the exponent value and the remaining characters (the exponent marker is only
consumed when at least one digit follows, as in JS). -/
def parseExp (cs : List Char) : Int × List Char :=
  match cs with
  | 'e' :: rest | 'E' :: rest =>
    let (eneg, rest') :=
      match rest with
      | '+' :: r => (false, r)
      | '-' :: r => (true, r)
      | r => (false, r)
    let eds := rest'.takeWhile Char.isDigit
    if eds.isEmpty then (0, cs)
    else ((if eneg then -(digitsToNat eds : Int) else (digitsToNat eds : Int)),
          rest'.drop eds.length)
  | _ => (0, cs)

/-- JS `parseFloat`: skips leading whitespace, parses the longest numeric
prefix (`[+-]? (Infinity | digits [.digits] [exp] | .digits [exp])`), and
returns `none` (`NaN`) when no prefix parses.  Trailing garbage is ignored. -/
def parseFloatQ (s : String) : Option JsNum :=
  let cs := s.toList.dropWhile jsWhite
  let (neg, cs') :=
    match cs with
    | '+' :: r => (false, r)
    | '-' :: r => (true, r)
    | r => (false, r)
  if cs'.take 8 = "Infinity".toList then some (.infinite neg)
  else
    let d1 := cs'.takeWhile Char.isDigit
    let r1 := cs'.drop d1.length
    let (d2, r2) :=
      match r1 with
      | '.' :: r => (r.takeWhile Char.isDigit, r.drop (r.takeWhile Char.isDigit).length)
      | r => ([], r)
    if d1.isEmpty ∧ d2.isEmpty then none
    else
      let (e, _) := parseExp r2
      some (.finite (decimalToDec d1 d2 e neg))

/-- Value of a hexadecimal / octal / binary digit list in base `b`
(`none` when empty or a character is out of range). -/
def radixToNat (b : Nat) (ds : List Char) : Option Nat :=
  if ds.isEmpty then none
  else ds.foldl (fun a c =>
    let v :=
      if '0' ≤ c ∧ c ≤ '9' then some (c.toNat - '0'.toNat)
      else if 'a' ≤ c ∧ c ≤ 'f' then some (c.toNat - 'a'.toNat + 10)
      else if 'A' ≤ c ∧ c ≤ 'F' then some (c.toNat - 'A'.toNat + 10)
      else none
    match a, v with
    | some n, some d => if d < b then some (n * b + d) else none
    | _, _ => none) (some 0)

/-- JS `Number(string)`: trims whitespace, maps the empty string to `0`, and
otherwise requires the whole remaining string to be a numeric literal
(decimal with optional sign, `Infinity`, or unsigned `0x`/`0o`/`0b`). -/
def jsNumber (s : String) : Option JsNum :=
  let cs := (s.toList.dropWhile jsWhite).reverse.dropWhile jsWhite |>.reverse
  if cs.isEmpty then some (.finite ⟨0, 0⟩)
  else
    match cs with
    | '0' :: 'x' :: ds => (radixToNat 16 ds).map (fun n => .finite ⟨n, 0⟩)
    | '0' :: 'X' :: ds => (radixToNat 16 ds).map (fun n => .finite ⟨n, 0⟩)
    | '0' :: 'o' :: ds => (radixToNat 8 ds).map (fun n => .finite ⟨n, 0⟩)
    | '0' :: 'O' :: ds => (radixToNat 8 ds).map (fun n => .finite ⟨n, 0⟩)
    | '0' :: 'b' :: ds => (radixToNat 2 ds).map (fun n => .finite ⟨n, 0⟩)
    | '0' :: 'B' :: ds => (radixToNat 2 ds).map (fun n => .finite ⟨n, 0⟩)
    | _ =>
      let (neg, cs') :=
        match cs with
        | '+' :: r => (false, r)
        | '-' :: r => (true, r)
        | r => (false, r)
      if cs' = "Infinity".toList then some (.infinite neg)
      else
        let d1 := cs'.takeWhile Char.isDigit
        let r1 := cs'.drop d1.length
        let (d2, r2) :=
          match r1 with
          | '.' :: r => (r.takeWhile Char.isDigit, r.drop (r.takeWhile Char.isDigit).length)
          | r => ([], r)
        if d1.isEmpty ∧ d2.isEmpty then none
        else
          let (e, r3) := parseExp r2
          if r3.isEmpty then some (.finite (decimalToDec d1 d2 e neg))
          else none

/-- Decimal digits of `n`, left-padded with zeros to width `w`. -/
def padDigits (w n : Nat) : String :=
  let ds := Nat.repr n
  String.mk (List.replicate (w - ds.length) '0') ++ ds

/-- JS number-to-string conversion (template literals, object keys).  Exact
decimal expansion; the exponential-notation regimes of JS (`|x| ≥ 1e21`,
`0 < |x| < 1e-6`) are idealized as plain decimal, which no crash-file value
reaches. -/
def jsNumToString (n : JsNum) : String :=
  match n with
  | .infinite true => "-Infinity"
  | .infinite false => "Infinity"
  | .finite d =>
    let sign := if d.man < 0 then "-" else ""
    let num := d.man.natAbs
    let intPart := num / 10 ^ d.exp
    let frac := num % 10 ^ d.exp
    sign ++ Nat.repr intPart ++
      (if d.exp = 0 then "" else "." ++ padDigits d.exp frac)

/-- `parseFloat`-based `tonumber` helper of both parsers: `null` (`none`)
exactly when `parseFloat` returns `NaN`. -/
def tonumber (s : String) : Option JsNum := parseFloatQ s

example : tonumber "1 \x7b" = some (.finite ⟨1, 0⟩) := by decide
example : tonumber "abc" = none := by decide
example : tonumber "12.5" = some (.finite ⟨125, 1⟩) := by decide
example : tonumber "Infinite" = none := by decide
example : tonumber "2.50" = some (.finite ⟨25, 1⟩) := by decide
example : jsNumber "" = some (.finite ⟨0, 0⟩) := by decide
example : jsNumber "1 \x7b" = none := by decide
example : jsNumber "0x10" = some (.finite ⟨16, 0⟩) := by decide
example : jsNumber "-3" = some (.finite ⟨-3, 0⟩) := by decide
example : jsNumToString (.finite ⟨125, 1⟩) = "12.5" := by decide
example : jsNumToString (.finite ⟨3, 0⟩) = "3" := by decide
example : jsNumToString (.finite ⟨-1005, 2⟩) = "-10.05" := by decide

/-! ## The `LineInfo` tree

`LineInfo {content, children, parent}` of `crashInfo.ts`.  The recursive
structure is encoded with a mutual inductive (`LineForest` is the children
list); `parent` back-references exist only while `createTree` runs and are
represented there by the explicit stack of open ancestors. -/

mutual
inductive LineTree where
  | node (content : String) (children : LineForest)
inductive LineForest where
  | nil
  | cons (t : LineTree) (ts : LineForest)
end

def LineTree.content : LineTree → String
  | .node c _ => c

def LineTree.children : LineTree → LineForest
  | .node _ cs => cs

def LineForest.ofList : List LineTree → LineForest
  | [] => .nil
  | t :: ts => .cons t (LineForest.ofList ts)

def LineForest.toList : LineForest → List LineTree
  | .nil => []
  | .cons t ts => t :: ts.toList

/-- Append a tree at the end of a forest (`children.push(node)`). -/
def LineForest.push : LineForest → LineTree → LineForest
  | .nil, t => .cons t .nil
  | .cons h ts, t => .cons h (ts.push t)

/-- Contents of the trees of a forest, in order. -/
def LineForest.contents : LineForest → List String
  | .nil => []
  | .cons (.node c _) ts => c :: ts.contents

/-- Node used in concrete examples: children given as a list. -/
def tnode (c : String) (cs : List LineTree) : LineTree :=
  .node c (.ofList cs)

mutual
/-- Depth-first traversal of a tree, listing `(content, depth)` pairs. -/
def dfsT (d : Nat) : LineTree → List (String × Nat)
  | .node c cs => (c, d) :: dfsF (d + 1) cs
/-- Depth-first traversal of a forest, listing `(content, depth)` pairs. -/
def dfsF (d : Nat) : LineForest → List (String × Nat)
  | .nil => []
  | .cons t ts => dfsT d t ++ dfsF d ts
end

/-- Depth-first traversal of a whole built tree: the synthetic root itself is
not listed; its children are at depth 0. -/
def treeDfs (t : LineTree) : List (String × Nat) := dfsF 0 t.children

/-! ## `TSMCrashFileParser.createTree`

The loop state `currentNode`/`currentLevel` with its `parent` chain is
represented by the stack of still-open nodes: `top` is `currentNode` (content
plus the children completed so far) and `rest` the chain of its ancestors up
to the root (last element).  `currentNode.parent` exists iff `rest` is
nonempty.  Attaching a finished node to its parent's `children` array is
`closeFrame`; the final tree is obtained by closing the whole chain. -/

/-- JS `/^( *)(.+)/.exec(line)`: leading-space count and remainder.  The
backtracking of the greedy space group means an all-space line matches with
one space left as content. -/
def lineMatch (line : String) : Option (Nat × String) :=
  let cs := line.toList
  if cs.isEmpty then none
  else
    let rest := cs.dropWhile (· = ' ')
    if rest.isEmpty then some (cs.length - 1, " ")
    else some ((cs.takeWhile (· = ' ')).length, String.mk rest)

/-- One frame of the open-node stack: content and completed children. -/
abbrev Frame := String × LineForest

/-- Attach the currently open node to its parent (`parent.children.push`);
`none` when the open node is the root (`parent` is `undefined`). -/
def closeFrame (top : Frame) (rest : List Frame) : Option (Frame × List Frame) :=
  match rest with
  | [] => none
  | (c2, cs2) :: r => some ((c2, cs2.push (.node top.1 top.2)), r)

/-- Close the whole open chain, yielding the root tree. -/
def closeAll : Frame → List Frame → LineTree
  | (c, cs), [] => .node c cs
  | (c, cs), (c2, cs2) :: r => closeAll (c2, cs2.push (.node c cs)) r

/-- The dedent walk: `n` successive moves to the parent, failing (`Error()`)
when the walk runs off the root. -/
def popFrames : Nat → Frame → List Frame → Option (Frame × List Frame)
  | 0, top, rest => some (top, rest)
  | n + 1, top, rest =>
    match closeFrame top rest with
    | none => none
    | some (t', r') => popFrames n t' r'

structure TreeSt where
  top : Frame
  rest : List Frame
  currentLevel : Nat

/-- Loop body of `TSMCrashFileParser.createTree` for one line (the source's
`level` local is written out as `nsp / 2`). -/
def tsmStep (st : TreeSt) (line : String) : Except ParseErr TreeSt :=
  match lineMatch line with
  | none => .error (.malformedIndentation ("Invalid crash file line: \x27" ++ line ++ "\x27"))
  | some (nsp, content) =>
    if nsp % 2 ≠ 0 then
      .error (.malformedIndentation
        ("Invalid crash file line indentation: " ++ Nat.repr nsp ++ " spaces"))
    else
      if nsp / 2 = 0 then
        .ok ⟨(content, .nil),
          [((closeAll st.top st.rest).content, (closeAll st.top st.rest).children)], 0⟩
      else if nsp / 2 = st.currentLevel then
        match closeFrame st.top st.rest with
        | none => .error (.malformedIndentation "")
        | some (t', r') => .ok ⟨(content, .nil), t' :: r', nsp / 2⟩
      else if nsp / 2 = st.currentLevel + 1 then
        .ok ⟨(content, .nil), st.top :: st.rest, nsp / 2⟩
      else if nsp / 2 < st.currentLevel then
        match popFrames (st.currentLevel - nsp / 2) st.top st.rest with
        | none => .error (.malformedIndentation "")
        | some (t', r') =>
          match closeFrame t' r' with
          | none => .error (.malformedIndentation "")
          | some (t'', r'') => .ok ⟨(content, .nil), t'' :: r'', nsp / 2⟩
      else .error (.malformedIndentation ("Invalid crash file line: " ++ line))

def tsmGo : TreeSt → List String → Except ParseErr LineTree
  | st, [] => .ok (closeAll st.top st.rest)
  | st, l :: ls =>
    match tsmStep st l with
    | .error e => .error e
    | .ok st' => tsmGo st' ls

/-- `TSMCrashFileParser.createTree`. -/
def tsmCreateTree (lines : List String) : Except ParseErr LineTree :=
  tsmGo ⟨("", .nil), [], 0⟩ lines

example : (tsmCreateTree ["a", "  b", "  c", "d"]).map treeDfs
    = .ok [("a", 0), ("b", 1), ("c", 1), ("d", 0)] := by decide
example : (tsmCreateTree ["a", "  b", "    c", "  d", "e"]).map treeDfs
    = .ok [("a", 0), ("b", 1), ("c", 2), ("d", 1), ("e", 0)] := by decide
example : (tsmCreateTree ["a", "  b", "    c", "d"]).map treeDfs
    = .ok [("a", 0), ("b", 1), ("c", 2), ("d", 0)] := by decide
example : (tsmCreateTree [" a"]).isOk = false := by decide
example : (tsmCreateTree ["a", "    b"]).isOk = false := by decide
example : (tsmCreateTree ["a", "   "]).map treeDfs = .ok [("a", 0), (" ", 1)] := by decide
example : (tsmCreateTree ["  a"]).map treeDfs = .ok [("a", 0)] := by decide

/-! ## `BlizzardCrashFileParser.createTree` -/

/-- ASCII letter or space (the JS class `[A-Za-z ]`). -/
def letterOrSpace (c : Char) : Bool :=
  ('A' ≤ c ∧ c ≤ 'Z') ∨ ('a' ≤ c ∧ c ≤ 'z') ∨ c = ' '

/-- JS `/^([A-Z][A-Za-z ]+): (.+)$/.exec(line)`: heading type and content. -/
def blizzHeading (line : String) : Option (String × String) :=
  match line.toList with
  | [] => none
  | c :: rest =>
    if 'A' ≤ c ∧ c ≤ 'Z' then
      let run := rest.takeWhile letterOrSpace
      if run.isEmpty then none
      else
        match rest.drop run.length with
        | ':' :: ' ' :: rem =>
          if rem.isEmpty then none else some (String.mk (c :: run), String.mk rem)
        | _ => none
    else none

/-- Append a leaf line to the most recent heading node. -/
def attachToLast : List (String × LineForest) → LineTree → List (String × LineForest)
  | [], _ => []
  | [x], t => [(x.1, x.2.push t)]
  | x :: xs, t => x :: attachToLast xs t

def blizzGo : List (String × LineForest) → List String → Except ParseErr LineTree
  | acc, [] => .ok (.node "" (.ofList (acc.map (fun p => .node p.1 p.2))))
  | acc, l :: ls =>
    match blizzHeading l with
    | some (htype, hcontent) =>
      if htype = "Message" then blizzGo (acc ++ [(l, .nil)]) ls
      else if htype = "Time" ∨ htype = "Count" then blizzGo acc ls
      else if htype = "Stack" then
        blizzGo (acc ++ [("Stack:", .cons (.node hcontent .nil) .nil)]) ls
      else if htype = "Locals" then
        blizzGo (acc ++ [("Locals:", .cons (.node hcontent .nil) .nil)]) ls
      else .error (.unknownCrashSection
        ("Invalid crash file heading type: \x27" ++ htype ++ "\x27"))
    | none =>
      if acc.isEmpty then
        .error (.unknownCrashSection ("Invalid crash file line: \x27" ++ l ++ "\x27"))
      else blizzGo (attachToLast acc (.node l .nil)) ls

/-- `BlizzardCrashFileParser.createTree` (including its blank-line filter). -/
def blizzardCreateTree (lines : List String) : Except ParseErr LineTree :=
  blizzGo [] (lines.filter (fun l => !(l.toList.dropWhile jsWhite).isEmpty))

example : (blizzardCreateTree ["Message: boom", "Time: 1", "Stack: f1", "f2"]).map treeDfs
    = .ok [("Message: boom", 0), ("Stack:", 0), ("f1", 1), ("f2", 1)] := by decide
example : (blizzardCreateTree ["junk first"]).isOk = false := by decide

/-! ## Decoded JS values

Values produced by `parseLocalVar` live in JS dynamic typing: strings (also
used for the raw text of `function`/`userdata` values), numbers, booleans,
`null` (decoded `nil`), and string-keyed objects for tables.  Object keys are
insertion-ordered; assigning an existing key updates it in place. -/

mutual
inductive JsValue where
  | str (s : String)
  | num (n : JsNum)
  | bool (b : Bool)
  | jsNull
  | table (fields : JsFields)
inductive JsFields where
  | nil
  | cons (key : String) (val : JsValue) (rest : JsFields)
end

/-- JS object assignment `obj[k] = v`: update in place or append. -/
def JsFields.set : JsFields → String → JsValue → JsFields
  | .nil, k, v => .cons k v .nil
  | .cons k' v' r, k, v =>
    if k' = k then .cons k' v r else .cons k' v' (JsFields.set r k v)

/-- JS `k in obj`. -/
def JsFields.hasKey : JsFields → String → Bool
  | .nil, _ => false
  | .cons k' _ r, k => k' = k || JsFields.hasKey r k

def JsFields.keys : JsFields → List String
  | .nil => []
  | .cons k _ r => k :: JsFields.keys r

def JsFields.get : JsFields → String → Option JsValue
  | .nil, _ => none
  | .cons k' v r, k => if k' = k then some v else JsFields.get r k

/-- Fields given as a list, for concrete examples. -/
def JsFields.ofList : List (String × JsValue) → JsFields
  | [] => .nil
  | (k, v) :: r => .cons k v (JsFields.ofList r)

/-! ## Small regex helpers (each models one concrete JS regex) -/

/-- Does `pat` occur in `cs` at position `i`? -/
def matchAt (cs pat : List Char) (i : Nat) : Bool :=
  (cs.drop i).take pat.length == pat

/-- Largest `i &lt; bound` satisfying `p` (the greedy choice). -/
def findLast (p : Nat → Bool) : Nat → Option Nat
  | 0 => none
  | n + 1 => if p n then some n else findLast p n

/-- JS `/(.+) = (.+)/.exec(content)`: split at the last ` = ` that leaves a
nonempty name and value (greedy first group). -/
def nameValueSplit (content : String) : Option (String × String) :=
  let cs := content.toList
  match findLast (fun i => matchAt cs [' ', '=', ' '] i && decide (1 ≤ i)
      && decide (i + 4 ≤ cs.length)) cs.length with
  | some i => some (String.mk (cs.take i), String.mk (cs.drop (i + 3)))
  | none => none

/-- JS `/"(.*)"/.exec(value)`: text between the first and last quote, when the
string holds at least two quotes. -/
def strQuoteMatch (value : String) : Option String :=
  let cs := value.toList
  match cs.findIdx? (· = '"'), findLast (fun i => matchAt cs ['"'] i) cs.length with
  | some p, some q =>
    if p < q then some (String.mk ((cs.drop (p + 1)).take (q - p - 1))) else none
  | _, _ => none

/-- JS `value.substring(0, pat.length) === pat`. -/
def startsWithStr (s pat : String) : Bool :=
  s.toList.take pat.toList.length == pat.toList

/-- JS `value.substring(value.length - pat.length) === pat` (a negative start
clamps to 0, where equality then fails on length). -/
def endsWithStr (s pat : String) : Bool :=
  s.toList.drop (s.toList.length - pat.toList.length) == pat.toList

/-- JS `/= <?(.+)>? \x7b/.exec(content)`: at the first `= ` that is followed
(after an optional `<`) by a later ` \x7b`, capture up to the last ` \x7b`
(the optional `>` is swallowed by the greedy group). -/
def tblNameMatch (content : String) : Option String :=
  let cs := content.toList
  let tryFrom : Nat → Option String := fun start =>
    match findLast (fun j => matchAt cs [' ', '\x7b'] j && decide (start < j))
        cs.length with
    | some j => some (String.mk ((cs.drop start).take (j - start)))
    | none => none
  (List.range cs.length).findSome? fun i =>
    if matchAt cs ['=', ' '] i then
      if matchAt cs ['<'] (i + 2) then
        match tryFrom (i + 3) with
        | some g => some g
        | none => tryFrom (i + 2)
      else tryFrom (i + 2)
    else none

/-! ## `TSMCrashFileParser.parseLocalVar` -/

mutual
/-- Decode one `name = value` line into `{name, value, type}`; `none` when the
line is not an assignment; error (`Unknown local`) on unrecognized values. -/
def parseLocalVar : LineTree → Except ParseErr (Option (String × JsValue × String))
  | .node content children =>
    match nameValueSplit content with
    | none => .ok none
    | some (name, value) =>
      match strQuoteMatch value with
      | some s => .ok (some (name, .str s, "string"))
      | none =>
        if startsWithStr value "<function>" then
          .ok (some (name, .str value, "function"))
        else if startsWithStr value "\x7b" then
          match parseLocalVarFields .nil children with
          | .error e => .error e
          | .ok tbl => .ok (some (name, .table tbl, "table"))
        else
          match tonumber value with
          | some n => .ok (some (name, .num n, "number"))
          | none =>
            if value = "nil" then .ok (some (name, .jsNull, "nil"))
            else if endsWithStr value "\x7b\x7d" ∨ endsWithStr value "\x7b" then
              let ty :=
                match tblNameMatch content with
                | some nm => "table<" ++ nm ++ ">"
                | none => "table"
              match parseLocalVarFields .nil children with
              | .error e => .error e
              | .ok tbl => .ok (some (name, .table tbl, ty))
            else if value = "<userdata>" then
              .ok (some (name, .str value, "userdata"))
            else if value = "true" ∨ value = "false" then
              .ok (some (name, .bool (value = "true"), "boolean"))
            else if value = "Infinite" then
              .ok (some (name, .num (.infinite false), "number"))
            else .error (.unrecognizedValueSyntax ("Unknown local: " ++ content))

/-- Table-member loop: decode each child, keying by the name (normalized
through `tonumber`/JS key stringification when numeric). -/
def parseLocalVarFields (acc : JsFields) : LineForest → Except ParseErr JsFields
  | .nil => .ok acc
  | .cons t ts =>
    match parseLocalVar t with
    | .error e => .error e
    | .ok none => parseLocalVarFields acc ts
    | .ok (some (n, v, _)) =>
      let key :=
        match tonumber n with
        | some jn => jsNumToString jn
        | none => n
      parseLocalVarFields (acc.set key v) ts
end

example : parseLocalVar (tnode "x = 1 \x7b" [])
    = .ok (some ("x", .num (.finite ⟨1, 0⟩), "number")) := rfl
example : parseLocalVar (tnode "y = \x7b\"a\"\x7d" [])
    = .ok (some ("y", .str "a", "string")) := rfl
example : parseLocalVar (tnode "t = \x7b" [tnode "a = 1" [], tnode "2 = nil" []])
    = .ok (some ("t", .table (.ofList [("a", .num (.finite ⟨1, 0⟩)), ("2", .jsNull)]),
        "table")) := rfl
example : parseLocalVar (tnode "v = <Foo> \x7b" [])
    = .ok (some ("v", .table .nil, "table<Foo>>")) := rfl
example : parseLocalVar (tnode "v = true" []) = .ok (some ("v", .bool true, "boolean")) := rfl
example : parseLocalVar (tnode "v = Infinite" [])
    = .ok (some ("v", .num (.infinite false), "number")) := rfl
example : parseLocalVar (tnode "not an assignment" []) = .ok none := rfl
example : (parseLocalVar (tnode "v = ???" [])).isOk = false := by decide

/-! ## `TSMCrashFileParser.getCrashInfo` -/

structure LocalVar where
  val : JsValue
  type : String

structure FrameInfo where
  name : String
  source : String
  currentline : JsNum
  func : String
  locals : List (String × LocalVar)

structure CrashInfo where
  errMsg : String
  frames : List FrameInfo
  logLines : List String

/-- JS object assignment on a string-keyed association list. -/
def assocSet {α : Type} : List (String × α) → String → α → List (String × α)
  | [], k, v => [(k, v)]
  | (k', v') :: r, k, v =>
    if k' = k then (k', v) :: r else (k', v') :: assocSet r k v

/-- JS `/^([A-Za-z ]+): ?(.*)$/.exec(content)`: heading type and content. -/
def headingMatch (content : String) : Option (String × String) :=
  let cs := content.toList
  let run := cs.takeWhile letterOrSpace
  if run.isEmpty then none
  else
    match cs.drop run.length with
    | ':' :: rest =>
      let rest' := match rest with | ' ' :: r => r | r => r
      some (String.mk run, String.mk rest')
    | _ => none

/-- JS `/^(.+) <(.+)>$/.exec(content)`: location and name of a frame line. -/
def frameMatch (content : String) : Option (String × String) :=
  let cs := content.toList
  let len := cs.length
  if matchAt cs ['>'] (len - 1) ∧ 1 ≤ len then
    match findLast (fun i => matchAt cs [' ', '<'] i && decide (1 ≤ i)
        && decide (i + 4 ≤ len)) len with
    | some i => some (String.mk (cs.take i), String.mk ((cs.drop (i + 2)).take (len - 1 - (i + 2))))
    | none => none
  else none

/-- JS `/^TSM[/\\](.+):([0-9]+)/.exec(location)`: file and line number. -/
def locationMatch (location : String) : Option (String × String) :=
  let cs := location.toList
  if cs.take 3 == "TSM".toList ∧ (matchAt cs ['/'] 3 ∨ matchAt cs ['\\'] 3) then
    let r := cs.drop 4
    match findLast (fun j => decide (1 ≤ j) && matchAt r [':'] j
        && ((r.drop (j + 1)).take 1).all Char.isDigit
        && decide (j + 1 < r.length)) r.length with
    | some j => some (String.mk (r.take j), String.mk ((r.drop (j + 1)).takeWhile Char.isDigit))
    | none => none
  else none

/-- `^TSM[/\\]` strip applied to the `Message` heading content. -/
def stripTSM (s : String) : String :=
  if startsWithStr s "TSM/" ∨ startsWithStr s "TSM\\" then String.mk (s.toList.drop 4) else s

def ignoredHeadings : List String :=
  ["Time", "Client", "Locale", "Combat", "Error Count", "Temp Tables",
   "Object Pools", "Running Threads", "Addons"]

/-- Locals loop of the `Stack Trace` branch: decoded locals keyed by raw name. -/
def parseLocals (acc : List (String × LocalVar)) :
    LineForest → Except ParseErr (List (String × LocalVar))
  | .nil => .ok acc
  | .cons t ts =>
    match parseLocalVar t with
    | .error e => .error e
    | .ok none => parseLocals acc ts
    | .ok (some (n, v, ty)) => parseLocals (assocSet acc n ⟨v, ty⟩) ts

/-- Frame loop of the `Stack Trace` branch. -/
def parseFrames : LineForest → Except ParseErr (List FrameInfo)
  | .nil => .ok []
  | .cons fn rest =>
    match frameMatch fn.content with
    | none => .error (.unrecognizedFrameSyntax ("Invalid frame line: " ++ fn.content))
    | some (location, name) =>
      let locm := locationMatch location
      match parseLocals [] fn.children with
      | .error e => .error e
      | .ok locals =>
        match parseFrames rest with
        | .error e => .error e
        | .ok frames =>
          .ok ({ name, source := (locm.map Prod.fst).getD "",
                 currentline :=
                   match locm with
                   | some (_, line) => (tonumber line).getD (.finite ⟨0, 0⟩)
                   | none => .finite ⟨0, 0⟩,
                 func := location, locals } :: frames)

/-- One iteration of the heading loop of `TSMCrashFileParser.getCrashInfo`. -/
def tsmProcessHeading (ci : CrashInfo) (h : LineTree) : Except ParseErr CrashInfo :=
  match headingMatch h.content with
  | none => .error (.unknownCrashSection
      ("Invalid crash file heading line: \x27" ++ h.content ++ "\x27"))
  | some (htype, hcontent) =>
    if htype = "Message" then .ok { ci with errMsg := stripTSM hcontent }
    else if htype = "Stack Trace" then
      match parseFrames h.children with
      | .error e => .error e
      | .ok fs => .ok { ci with frames := ci.frames ++ fs }
    else if htype = "Debug Log" then
      .ok { ci with logLines := h.children.contents.reverse }
    else if ignoredHeadings.contains htype then .ok ci
    else .error (.unknownCrashSection ("Invalid crash file line: \x27" ++ h.content ++ "\x27"))

/-- The heading loop. -/
def tsmWalk (ci : CrashInfo) : LineForest → Except ParseErr CrashInfo
  | .nil => .ok ci
  | .cons h hs =>
    match tsmProcessHeading ci h with
    | .error e => .error e
    | .ok ci' => tsmWalk ci' hs

/-- `TSMCrashFileParser.getCrashInfo`. -/
def tsmGetCrashInfo (t : LineTree) : Except ParseErr CrashInfo :=
  match tsmWalk ⟨"", [], []⟩ t.children with
  | .error e => .error e
  | .ok ci =>
    if ci.errMsg = "" then
      .error (.incompleteCrashInfo "Could not find error message in crash file")
    else if ci.frames.length = 0 then
      .error (.incompleteCrashInfo "Could not find frames in crash file")
    else .ok ci

/-- The whole TSM pipeline on a list of lines. -/
def tsmParse (lines : List String) : Except ParseErr CrashInfo :=
  match tsmCreateTree lines with
  | .error e => .error e
  | .ok t => tsmGetCrashInfo t

example : (tsmParse ["Message: TSM/boom", "Stack Trace:",
    "  TSM/Core.lua:10 <func>", "Debug Log:", "  one", "  two"]).map CrashInfo.errMsg
    = .ok "boom" := rfl
example : (tsmParse ["Message: TSM/boom", "Stack Trace:",
    "  TSM/Core.lua:10 <func>", "Debug Log:", "  one", "  two"]).map CrashInfo.logLines
    = .ok ["two", "one"] := rfl
example : (tsmParse ["Message: TSM/boom", "Stack Trace:",
    "  TSM/Core.lua:10 <func>"]).map (fun ci => ci.frames.map FrameInfo.currentline)
    = .ok [.finite ⟨10, 0⟩] := rfl
example : (tsmParse ["Message: boom"]).isOk = false := by decide
example : (tsmParse ["Oddball: x"]).isOk = false := by decide

/-! ## `BlizzardCrashFileParser.getCrashInfo` -/

def isSep (c : Char) : Bool := c = '/' ∨ c = '\\'

/-- Grave accent and apostrophe characters (JS `` [`<] `` / `['>]` classes). -/
def graveChar : Char := Char.ofNat 96

def aposChar : Char := Char.ofNat 39

/-- Tail `:?([0-9]*): (.+)` of a stack-frame line after `"]`: the digit group
and the trailing text (the greedy optional `:` is tried first). -/
def parseStackTail (tail : List Char) : Option (String × String) :=
  let alt : List Char → Option (String × String) := fun t =>
    let ds := t.takeWhile Char.isDigit
    match t.drop ds.length with
    | ':' :: ' ' :: rem => if rem.isEmpty then none else some (String.mk ds, String.mk rem)
    | _ => none
  match tail with
  | ':' :: t1 =>
    match alt t1 with
    | some r => some r
    | none => alt tail
  | _ => alt tail

/-- JS `/^\[string "@?([^"]+)"\]:?([0-9]*): (.+)/.exec(content)`: the quoted
path (optional `@` stripped), the digit group, and the trailing text. -/
def stackFrameMatch (content : String) : Option (String × String × String) :=
  let cs := content.toList
  if cs.take 9 == "[string \"".toList then
    let rest0 := cs.drop 9
    let attempt : List Char → Option (String × String × String) := fun l =>
      let path := l.takeWhile (· ≠ '"')
      if path.isEmpty then none
      else
        match l.drop path.length with
        | '"' :: ']' :: tail =>
          (parseStackTail tail).map (fun (ds, rem) => (String.mk path, ds, rem))
        | _ => none
    match rest0 with
    | '@' :: r =>
      match attempt r with
      | some res => some res
      | none => attempt rest0
    | _ => attempt rest0
  else none

/-- JS `/^\.\.\.([^:]+)/.exec(first)`: the partial path after the ellipsis. -/
def dotsMatch (s : String) : Option String :=
  let cs := s.toList
  if cs.take 3 == "...".toList then
    let p := (cs.drop 3).takeWhile (· ≠ ':')
    if p.isEmpty then none else some (String.mk p)
  else none

/-- JS `String.replace` with a plain-string pattern: first occurrence only. -/
def replaceOnce (s pat rep : String) : String :=
  let cs := s.toList
  let pcs := pat.toList
  match (List.range (cs.length + 1)).findSome?
      (fun i => if matchAt cs pcs i then some i else none) with
  | some i => String.mk (cs.take i) ++ rep ++ String.mk (cs.drop (i + pcs.length))
  | none => s

/-- Search the stack-frame lines for a full path ending in the partial path
(first match wins, as the source loop breaks). -/
def findFullPath (p : String) : LineForest → Option String
  | .nil => none
  | .cons t ts =>
    match stackFrameMatch t.content with
    | some (path, _, _) =>
      if endsWithStr path p then some path else findFullPath p ts
    | none => findFullPath p ts

/-- Partial-path resolution of the first stack-frame line. -/
def resolveFirstFrame (first : String) (children : LineForest) : String :=
  match dotsMatch first with
  | none => first
  | some p =>
    match findFullPath p children with
    | some fullPath => replaceOnce first ("..." ++ p) fullPath
    | none => first

/-- JS `/^(Interface[/\\]Add[Oo]ns[/\\][^/\\]+)[/\\]([^.]+\.lua):([0-9]+):/`:
addon directory, addon-relative file path (with `.lua`), and line number. -/
def firstFrameMatch (s : String) : Option (String × String × String) :=
  let cs := s.toList
  if cs.take 9 == "Interface".toList ∧ ((cs.drop 9).take 1).all isSep
      ∧ (cs.drop 10).take 3 == "Add".toList
      ∧ ((cs.drop 13).take 1 == ['O'] ∨ (cs.drop 13).take 1 == ['o'])
      ∧ (cs.drop 14).take 2 == "ns".toList
      ∧ ((cs.drop 16).take 1).all isSep ∧ 17 ≤ cs.length then
    let nm := (cs.drop 17).takeWhile (fun c => !isSep c)
    if nm.isEmpty then none
    else
      let i := 17 + nm.length
      if ((cs.drop i).take 1).all isSep ∧ i < cs.length then
        let j := i + 1
        let p2 := (cs.drop j).takeWhile (· ≠ '.')
        if p2.isEmpty then none
        else
          let k := j + p2.length
          if (cs.drop k).take 5 == ".lua:".toList then
            let ds := (cs.drop (k + 5)).takeWhile Char.isDigit
            if ds.isEmpty then none
            else if (cs.drop (k + 5 + ds.length)).take 1 == [':'] then
              some (String.mk (cs.take i), String.mk (p2 ++ ".lua".toList), String.mk ds)
            else none
          else none
      else none
  else none

/-- JS ``/in function [`<](.+)['>]/.exec(name)``: unwrap the function name. -/
def nameUnwrap (s : String) : Option String :=
  let cs := s.toList
  (List.range cs.length).findSome? fun i =>
    if matchAt cs "in function ".toList i
        ∧ (matchAt cs [graveChar] (i + 12) ∨ matchAt cs ['<'] (i + 12)) then
      match findLast (fun k => (matchAt cs [aposChar] k ∨ matchAt cs ['>'] k)
          && decide (i + 14 ≤ k)) cs.length with
      | some k => some (String.mk ((cs.drop (i + 13)).take (k - (i + 13))))
      | none => none
    else none

/-- Frame loop over the stack lines after the first (a literal `...` line
stops collection early). -/
def blizzFrames (addonPath : String) : LineForest → Except ParseErr (List FrameInfo)
  | .nil => .ok []
  | .cons t ts =>
    if t.content = "..." then .ok []
    else
      match stackFrameMatch t.content with
      | none => .error (.unrecognizedFrameSyntax ("UNKNOWN FRAME: " ++ t.content))
      | some (rawLocation, line, rawName) =>
        let location :=
          if startsWithStr rawLocation addonPath then
            String.mk (rawLocation.toList.drop (addonPath.toList.length + 1))
          else rawLocation
        let name := match nameUnwrap rawName with | some n => n | none => rawName
        match blizzFrames addonPath ts with
        | .error e => .error e
        | .ok fs =>
          .ok ({ name, source := location,
                 currentline := (tonumber line).getD (.finite ⟨0, 0⟩),
                 func := location, locals := [] } :: fs)

/-- One iteration of the heading loop of `BlizzardCrashFileParser.getCrashInfo`. -/
def blizzProcessHeading (ci : CrashInfo) (h : LineTree) : Except ParseErr CrashInfo :=
  match headingMatch h.content with
  | none => .error (.unknownCrashSection
      ("Invalid crash file heading line: \x27" ++ h.content ++ "\x27"))
  | some (htype, hcontent) =>
    if htype = "Message" then .ok { ci with errMsg := stripTSM hcontent }
    else if htype = "Stack" then
      match h.children with
      | .nil => .error (.malformedStackHeader "Crash file has an empty stack")
      | .cons c0 rest =>
        let firstResolved := resolveFirstFrame c0.content (.cons c0 rest)
        match firstFrameMatch firstResolved with
        | none => .error (.malformedStackHeader
            ("Failed to parse first stack frame: " ++ firstResolved))
        | some (addonPath, filePath, line) =>
          match blizzFrames addonPath rest with
          | .error e => .error e
          | .ok fs =>
            .ok { ci with frames := ci.frames ++
              ({ name := "?", source := filePath,
                 currentline := (tonumber line).getD (.finite ⟨0, 0⟩),
                 func := "?", locals := [] } :: fs) }
    else if htype = "Locals" then .ok ci
    else .error (.unknownCrashSection ("Invalid crash file heading: \x27" ++ htype ++ "\x27"))

/-- The heading loop. -/
def blizzWalk (ci : CrashInfo) : LineForest → Except ParseErr CrashInfo
  | .nil => .ok ci
  | .cons h hs =>
    match blizzProcessHeading ci h with
    | .error e => .error e
    | .ok ci' => blizzWalk ci' hs

/-- `BlizzardCrashFileParser.getCrashInfo` (note: no completeness checks). -/
def blizzardGetCrashInfo (t : LineTree) : Except ParseErr CrashInfo :=
  blizzWalk ⟨"", [], []⟩ t.children

/-- The whole Blizzard pipeline on a list of lines. -/
def blizzardParse (lines : List String) : Except ParseErr CrashInfo :=
  match blizzardCreateTree lines with
  | .error e => .error e
  | .ok t => blizzardGetCrashInfo t

example : (blizzardParse ["Message: boom"]).map (fun ci => (ci.errMsg, ci.frames.length))
    = .ok ("boom", 0) := rfl
example : (blizzardParse ["Message: boom",
    "Stack: Interface/AddOns/MyAddon/Core.lua:5: oops",
    "[string \"@Interface/AddOns/MyAddon/Util.lua\"]:10: in function \x60DoThing\x27"]).map
      (fun ci => ci.frames.map (fun f => (f.name, f.source, f.currentline)))
    = .ok [("?", "Core.lua", .finite ⟨5, 0⟩), ("DoThing", "Util.lua", .finite ⟨10, 0⟩)] := rfl
example : (blizzardParse ["Message: boom",
    "Stack: ...yAddon/Core.lua:5: oops",
    "[string \"@Interface/AddOns/MyAddon/Core.lua\"]:10: in function \x60DoThing\x27"]).map
      (fun ci => ci.frames.map (fun f => (f.name, f.source)))
    = .ok [("?", "Core.lua"), ("DoThing", "Core.lua")] := rfl
example : (blizzardParse ["Message: boom", "Stack: garbage"]).isOk = false := by decide
example : blizzardParse ["Message: boom", "Stack: garbage"]
    = .error (.malformedStackHeader "Failed to parse first stack frame: garbage") := rfl

/-! ## The Variable Reference Registry -/

/-- Modelled from the spec: the Variable Reference Registry is the `Handles`
class of the vscode-debugadapter dependency, which is not part of this
repository's sources (`LuaDebugSession` only constructs it with start handle
`ScopeType.Local + 1` and calls `create`/`get`/`reset`).  Per §4.4/§3:
`create(path)` assigns consecutive integer handles starting at the constructor
argument, `resolve` maps a handle back to its path and fails with
`InvalidVariableReference` on a handle that does not resolve, and `reset`
invalidates all handles and restarts the counter. -/
structure Registry where
  start : Nat
  nextHandle : Nat
  entries : List (Nat × String)
deriving DecidableEq, Repr

def Registry.init (start : Nat) : Registry := ⟨start, start, []⟩

def Registry.create (r : Registry) (p : String) : Nat × Registry :=
  (r.nextHandle, ⟨r.start, r.nextHandle + 1, r.entries ++ [(r.nextHandle, p)]⟩)

def Registry.resolve (r : Registry) (h : Nat) : Except ParseErr String :=
  match r.entries.lookup h with
  | some p => .ok p
  | none => .error (.invalidVariableReference "unknown variable reference handle")

def Registry.reset (r : Registry) : Registry := ⟨r.start, r.start, []⟩

/-- The reserved `ScopeType.Local` scope identifier. -/
def ScopeTypeLocal : Nat := 1

/-- The session's registry: `new Handles<string>(ScopeType.Local + 1)`. -/
def sessionRegistry : Registry := Registry.init (ScopeTypeLocal + 1)

/-- Registry states reachable in a session (constructed once, then touched
only through `create` and `reset`). -/
inductive Reach : Registry → Prop where
  | init : Reach sessionRegistry
  | create (r : Registry) (p : String) : Reach r → Reach (r.create p).2
  | reset (r : Registry) : Reach r → Reach r.reset

/-! ## Variable presentation (`LuaDebugSession.variablesRequest` / `handleVariable`) -/

/-- The DAP `Variable` objects built by the session (fields actually set). -/
structure Variable where
  name : String
  value : String
  variablesReference : Nat
  indexedVariables : Option Nat
  namedVariables : Option Nat
deriving DecidableEq, Repr

def JsFields.size : JsFields → Nat
  | .nil => 0
  | .cons _ _ r => 1 + JsFields.size r

/-- The probe loop `while ("" + (n+1) in table) n++` starting at `acc`,
with explicit fuel (the loop always terminates within `size` steps since the
probed keys are distinct). -/
def probeRun (f : JsFields) : Nat → Nat → Nat
  | 0, acc => acc
  | fuel + 1, acc =>
    if f.hasKey (Nat.repr (acc + 1)) then probeRun f fuel (acc + 1) else acc

/-- The `indexedVariables` hint of a table: probe 1, 2, … until a missing
index, then add one when anything was found
(`indexedVariables > 0 ? indexedVariables + 1 : indexedVariables`). -/
def jsIndexedVars (f : JsFields) : Nat :=
  let run := probeRun f f.size 0
  if run > 0 then run + 1 else run

/-- JS template-literal stringification of a decoded value. -/
def toTemplateString (v : JsValue) : String :=
  match v with
  | .str s => s
  | .num n => jsNumToString n
  | .bool b => if b then "true" else "false"
  | .jsNull => "null"
  | .table _ => "[object Object]"

/-- `LuaDebugSession.handleVariable(value, key, ref)`: presentation of one
member of an expanded composite.  `none` is JS `undefined` (a missing index,
shown as `nil`); a decoded `nil` member is JS `null`, on which the source's
`in`-probe throws a `TypeError` (`typeof null === "object"`). -/
def handleVariable (reg : Registry) (value : Option JsValue) (key ref : String) :
    Except ParseErr (Variable × Registry) :=
  match value with
  | some (.str s) => .ok (⟨key, "\"" ++ s ++ "\"", 0, some 0, none⟩, reg)
  | some (.num n) => .ok (⟨key, jsNumToString n, 0, some 0, none⟩, reg)
  | some (.bool b) => .ok (⟨key, if b then "true" else "false", 0, some 0, none⟩, reg)
  | none => .ok (⟨key, "nil", 0, some 0, none⟩, reg)
  | some .jsNull => .error (.typeError "Cannot use \x27in\x27 operator on null")
  | some (.table f) =>
    let iv := jsIndexedVars f
    let (h, reg') := reg.create (ref ++ ":" ++ key)
    .ok (⟨key, "<table>", h, some iv, some 1⟩, reg')

/-- Top-level locals presentation (the `variablesReference === ScopeType.Local`
branch of `variablesRequest`): dispatch on the decoded `type` string. -/
def mkLocalVariable (reg : Registry) (frame : Nat) (luaName : String) (lv : LocalVar) :
    Except ParseErr (Variable × Registry) :=
  if lv.type = "table" then
    match lv.val with
    | .table f =>
      let iv := jsIndexedVars f
      let (h, reg') := reg.create (Nat.repr frame ++ ":" ++ luaName)
      .ok (⟨luaName, "<table>", h, some iv, some 1⟩, reg')
    | _ => .error (.typeError "Cannot use \x27in\x27 operator on a non-object")
  else
    let valueStr :=
      if lv.type = "string" then "\"" ++ toTemplateString lv.val ++ "\""
      else if lv.type = "number" ∨ lv.type = "boolean" then toTemplateString lv.val
      else if lv.type = "nil" then "nil"
      else if lv.type = "function" then "<function>"
      else "[" ++ lv.type ++ "]"
    .ok (⟨luaName, valueStr, 0, some 0, none⟩, reg)

example : (handleVariable sessionRegistry
      (some (.table (.ofList [("1", .num (.finite ⟨1, 0⟩)), ("2", .num (.finite ⟨2, 0⟩)),
        ("5", .num (.finite ⟨5, 0⟩))]))) "k" "0:t").map (fun p => p.1.indexedVariables)
    = .ok (some 3) := rfl
example : (handleVariable sessionRegistry (some (.table .nil)) "k" "0:t").map
      (fun p => p.1.indexedVariables) = .ok (some 0) := rfl

/-! ## `sortVariables` and the response sort -/

/-- Case-insensitive folding used before comparison (`toLowerCase`, ASCII). -/
def lowerStr (s : String) : String := String.mk (s.toList.map Char.toLower)

/-- Three-way UTF-16 code-unit comparison of JS strings (`<`, `===`). -/
def compareChars : List Char → List Char → Ordering
  | [], [] => .eq
  | [], _ :: _ => .lt
  | _ :: _, [] => .gt
  | x :: xs, y :: ys =>
    if x < y then .lt else if y < x then .gt else compareChars xs ys

/-- Three-way comparison of two decimals (sign of the subtraction). -/
def cmpDec (a b : Dec) : Ordering :=
  if a.man * 10 ^ b.exp < b.man * 10 ^ a.exp then .lt
  else if b.man * 10 ^ a.exp < a.man * 10 ^ b.exp then .gt
  else .eq

/-- Sign of `a - b` on JS numbers; `Infinity - Infinity` is `NaN`, which the
sort treats as 0 (`eq`). -/
def cmpJsNum (x y : JsNum) : Ordering :=
  match x, y with
  | .finite a, .finite b => cmpDec a b
  | .finite _, .infinite neg => if neg then .gt else .lt
  | .infinite neg, .finite _ => if neg then .lt else .gt
  | .infinite a, .infinite b => if a = b then .eq else if a then .lt else .gt

/-- `sortVariables(a, b)` comparator: bracketted (`[[`) names first, then
names that `Number()` accepts in ascending numeric order, then the remaining
names compared case-insensitively after replacing the first `[` with a space
(case-sensitively when the case-folded forms are equal). -/
def cmpVars (a b : Variable) : Ordering :=
  let aBr := startsWithStr a.name "[["
  let bBr := startsWithStr b.name "[["
  if aBr ≠ bBr then (if aBr then .lt else .gt)
  else
    match jsNumber a.name, jsNumber b.name with
    | some x, some y => cmpJsNum x y
    | some _, none => .lt
    | none, some _ => .gt
    | none, none =>
      let aN := replaceOnce a.name "[" " "
      let bN := replaceOnce b.name "[" " "
      let aL := lowerStr aN
      let bL := lowerStr bN
      if aL ≠ bL then compareChars aL.toList bL.toList
      else compareChars aN.toList bN.toList

/-- Stable insertion respecting the comparator. -/
def insertVar (x : Variable) : List Variable → List Variable
  | [] => [x]
  | y :: ys => if cmpVars x y = .lt then x :: y :: ys else y :: insertVar x ys

/-- `variables.sort(sortVariables)`: a stable comparator sort (ECMAScript
requires `Array.prototype.sort` to be stable, which determines the result
uniquely). -/
def jsSortVariables (vs : List Variable) : List Variable :=
  vs.foldl (fun acc x => insertVar x acc) []

/-- Variable with only a name, for sort examples. -/
def nmVar (n : String) : Variable := ⟨n, "", 0, some 0, none⟩

example : jsSortVariables [nmVar "b", nmVar "[[meta]]", nmVar "10", nmVar "2", nmVar "A"]
    = [nmVar "[[meta]]", nmVar "2", nmVar "10", nmVar "A", nmVar "b"] := rfl
example : jsSortVariables [nmVar "x[y", nmVar "x1y"] = [nmVar "x[y", nmVar "x1y"] := rfl
example : jsSortVariables [nmVar "x1y", nmVar "x[y"] = [nmVar "x[y", nmVar "x1y"] := rfl

/-! ## Supporting lemmas -/

theorem lookup_append_last {l : List (Nat × String)} {n : Nat} {p : String}
    (h : ∀ k ∈ l.map Prod.fst, k ≠ n) : List.lookup n (l ++ [(n, p)]) = some p := by
  induction l with
  | nil => simp [List.lookup]
  | cons x xs ih =>
    have hx : x.1 ≠ n := h x.1 (by simp)
    have hxs : ∀ k ∈ xs.map Prod.fst, k ≠ n := fun k hk => h k (by simp [hk])
    simp only [List.cons_append, List.lookup]
    have : (n == x.1) = false := by
      simp only [beq_eq_false_iff_ne]
      exact fun e => hx e.symm
    rw [this]
    exact ih hxs

/-- Session invariant of the registry: the start handle is `2`, every issued
handle is below the counter, and every issued handle is above the Locals
scope id. -/
theorem reach_inv {r : Registry} (h : Reach r) :
    r.start = ScopeTypeLocal + 1 ∧ ScopeTypeLocal < r.nextHandle ∧
      ∀ k ∈ r.entries.map Prod.fst, ScopeTypeLocal < k ∧ k < r.nextHandle := by
  induction h with
  | init => exact ⟨rfl, by decide, by simp [sessionRegistry, Registry.init]⟩
  | create r p _ ih =>
    obtain ⟨hs, hn, hk⟩ := ih
    refine ⟨hs, Nat.lt_succ_of_lt hn, ?_⟩
    intro k hkmem
    simp only [Registry.create, List.map_append, List.mem_append] at hkmem
    rcases hkmem with hk1 | hk2
    · exact ⟨(hk k hk1).1, Nat.lt_succ_of_lt (hk k hk1).2⟩
    · simp at hk2
      subst hk2
      exact ⟨hn, Nat.lt_succ_self _⟩
  | reset r _ ih =>
    obtain ⟨hs, _, _⟩ := ih
    refine ⟨hs, ?_, ?_⟩
    · simp [Registry.reset, hs, ScopeTypeLocal]
    · simp [Registry.reset]

/-- Claim C7 — the Variable Reference Registry round-trips paths
(`resolve(create(p)) == p`), loses every issued handle on `reset()`
(`InvalidVariableReference`), and only issues handles above the reserved
`ScopeType.Local` scope identifier.  (Registry modelled from the spec, since
the `Handles` class lives in the vscode-debugadapter dependency.) -/
theorem c7_registry :
    (∀ (r : Registry), Reach r → ∀ (p : String),
        ((r.create p).2).resolve (r.create p).1 = .ok p)
    ∧ (∀ (r : Registry) (h : Nat), h ∈ r.entries.map Prod.fst →
        ∃ m, (r.reset).resolve h = .error (.invalidVariableReference m))
    ∧ (∀ (r : Registry), Reach r → ∀ h ∈ r.entries.map Prod.fst, ScopeTypeLocal < h) := by
  refine ⟨?_, ?_, ?_⟩
  · intro r hr p
    obtain ⟨_, _, hk⟩ := reach_inv hr
    have : ∀ k ∈ r.entries.map Prod.fst, k ≠ r.nextHandle :=
      fun k hkm => Nat.ne_of_lt (hk k hkm).2
    simp only [Registry.create, Registry.resolve]
    rw [lookup_append_last this]
  · intro r h _
    exact ⟨"unknown variable reference handle", by simp [Registry.reset, Registry.resolve, List.lookup]⟩
  · intro r hr h hm
    exact ((reach_inv hr).2.2 h hm).1

/-- Witness for C7 at a concrete path and session history. -/
theorem c7_registry_witness :
    ((sessionRegistry.create "0:myTable").2).resolve (sessionRegistry.create "0:myTable").1
        = .ok "0:myTable"
    ∧ (∃ m, ((sessionRegistry.create "0:myTable").2).reset.resolve 2
        = .error (.invalidVariableReference m))
    ∧ ScopeTypeLocal < 2 := by
  refine ⟨c7_registry.1 sessionRegistry Reach.init "0:myTable", ?_, ?_⟩
  · exact c7_registry.2.1 (sessionRegistry.create "0:myTable").2 2 (by decide)
  · exact c7_registry.2.2 (sessionRegistry.create "0:myTable").2
      (Reach.create _ _ Reach.init) 2 (by decide)

/-- The probe loop computes exactly the contiguous-run length `n` (all of
`1..n` present, `n+1` absent) once the fuel covers the remaining distance. -/
theorem probeRun_eq {f : JsFields} {n : Nat}
    (hall : ∀ i, 1 ≤ i → i ≤ n → f.hasKey (Nat.repr i) = true)
    (hmiss : f.hasKey (Nat.repr (n + 1)) = false) :
    ∀ fuel acc, acc ≤ n → n - acc ≤ fuel → probeRun f fuel acc = n := by
  intro fuel
  induction fuel with
  | zero =>
    intro acc h1 h2
    have : acc = n := Nat.le_antisymm h1 (Nat.le_of_sub_eq_zero (Nat.le_zero.mp h2))
    simp [probeRun, this]
  | succ fuel ih =>
    intro acc h1 h2
    rcases Nat.lt_or_ge acc n with hlt | hge
    · have hk : f.hasKey (Nat.repr (acc + 1)) = true :=
        hall (acc + 1) (Nat.le_add_left 1 acc) hlt
      simp only [probeRun, hk, if_true]
      exact ih (acc + 1) hlt (by omega)
    · have : acc = n := Nat.le_antisymm h1 hge
      subst this
      simp [probeRun, hmiss]

/-- Claim C5 (amended) — the `indexedVariables` hint for a table whose
contiguous integer-key run from 1 has length `n` is `0` when `n = 0` and
`n + 1` otherwise (the source adds one to a nonzero probe count), and this is
exactly the hint reported by `handleVariable` and by the locals branch of
`variablesRequest` for table values. -/
theorem c5_indexed_hint :
    (∀ (f : JsFields) (n : Nat),
        (∀ i, 1 ≤ i → i ≤ n → f.hasKey (Nat.repr i) = true) →
        f.hasKey (Nat.repr (n + 1)) = false → n ≤ f.size →
        jsIndexedVars f = if n = 0 then 0 else n + 1)
    ∧ (∀ (reg : Registry) (f : JsFields) (key ref : String),
        (handleVariable reg (some (.table f)) key ref).map (fun p => p.1.indexedVariables)
          = .ok (some (jsIndexedVars f)))
    ∧ (∀ (reg : Registry) (frame : Nat) (luaName : String) (f : JsFields),
        (mkLocalVariable reg frame luaName ⟨.table f, "table"⟩).map
          (fun p => p.1.indexedVariables) = .ok (some (jsIndexedVars f))) := by
  refine ⟨?_, fun _ _ _ _ => rfl, fun _ _ _ _ => rfl⟩
  intro f n hall hmiss hsize
  have hrun : probeRun f f.size 0 = n := probeRun_eq hall hmiss f.size 0 (Nat.zero_le n) (by omega)
  unfold jsIndexedVars
  rw [hrun]
  rcases Nat.eq_zero_or_pos n with h0 | hpos
  · simp [h0]
  · simp [Nat.pos_iff_ne_zero.mp hpos, hpos]

/-- Witness for C5 at the sparse table with keys `1, 2, 5`: run length 2,
reported hint 3. -/
theorem c5_indexed_hint_witness :
    jsIndexedVars (JsFields.ofList [("1", .num (.finite ⟨1, 0⟩)),
      ("2", .num (.finite ⟨2, 0⟩)), ("5", .num (.finite ⟨5, 0⟩))]) = 3
    ∧ (handleVariable sessionRegistry (some (.table (JsFields.ofList
        [("1", .num (.finite ⟨1, 0⟩)), ("2", .num (.finite ⟨2, 0⟩)),
         ("5", .num (.finite ⟨5, 0⟩))]))) "t" "0:t").map (fun p => p.1.indexedVariables)
      = .ok (some 3) := by
  have h1 := c5_indexed_hint.1 (JsFields.ofList [("1", .num (.finite ⟨1, 0⟩)),
    ("2", .num (.finite ⟨2, 0⟩)), ("5", .num (.finite ⟨5, 0⟩))]) 2
    (by decide) (by decide) (by decide)
  have h2 := c5_indexed_hint.2.1 sessionRegistry (JsFields.ofList
    [("1", .num (.finite ⟨1, 0⟩)), ("2", .num (.finite ⟨2, 0⟩)),
     ("5", .num (.finite ⟨5, 0⟩))]) "t" "0:t"
  rw [if_neg (by decide)] at h1
  exact ⟨h1, by rw [h2, h1]⟩

/-- Counterexample for C5 — the table with keys `1, 2, 5` has contiguous run
`1, 2` (length 2: key `3` is missing), yet the reported hint is 3, not 2. -/
theorem c5_counterexample :
    (handleVariable sessionRegistry (some (.table (JsFields.ofList
        [("1", .num (.finite ⟨1, 0⟩)), ("2", .num (.finite ⟨2, 0⟩)),
         ("5", .num (.finite ⟨5, 0⟩))]))) "t" "0:t").map (fun p => p.1.indexedVariables)
      = .ok (some 3)
    ∧ (JsFields.ofList [("1", .num (.finite ⟨1, 0⟩)), ("2", .num (.finite ⟨2, 0⟩)),
        ("5", .num (.finite ⟨5, 0⟩))]).hasKey "1" = true
    ∧ (JsFields.ofList [("1", .num (.finite ⟨1, 0⟩)), ("2", .num (.finite ⟨2, 0⟩)),
        ("5", .num (.finite ⟨5, 0⟩))]).hasKey "2" = true
    ∧ (JsFields.ofList [("1", .num (.finite ⟨1, 0⟩)), ("2", .num (.finite ⟨2, 0⟩)),
        ("5", .num (.finite ⟨5, 0⟩))]).hasKey "3" = false
    ∧ (3 : Nat) ≠ 2 := ⟨rfl, by decide, by decide, by decide, by decide⟩

/-- Claim C2 (amended) — value decoding tries the quoted-string rule, the
`<function>` prefix rule, and the starts-with-`\x7b` table rule before the
number rule, but the ends-with-`\x7b`/`\x7b\x7d` table rule only after the
number rule (and the `nil` rule); since `parseFloat` accepts a numeric prefix,
a value such as `1 \x7b` decodes as a number, not a table. -/
theorem c2_value_rules :
    (∀ (content : String) (children : LineForest) (name value : String)
        (r : String × JsValue × String),
        nameValueSplit content = some (name, value) →
        strQuoteMatch value = none →
        startsWithStr value "<function>" = false →
        startsWithStr value "\x7b" = true →
        parseLocalVar (.node content children) = .ok (some r) →
        r.2.2 = "table")
    ∧ (∀ (content : String) (children : LineForest) (name value : String)
        (r : String × JsValue × String),
        nameValueSplit content = some (name, value) →
        strQuoteMatch value = none →
        startsWithStr value "<function>" = false →
        startsWithStr value "\x7b" = false →
        tonumber value = none →
        value ≠ "nil" →
        (endsWithStr value "\x7b\x7d" = true ∨ endsWithStr value "\x7b" = true) →
        parseLocalVar (.node content children) = .ok (some r) →
        (r.2.2 = "table" ∨ ∃ nm, r.2.2 = "table<" ++ nm ++ ">"))
    ∧ (∀ (content : String) (children : LineForest) (name value : String) (jn : JsNum),
        nameValueSplit content = some (name, value) →
        strQuoteMatch value = none →
        startsWithStr value "<function>" = false →
        startsWithStr value "\x7b" = false →
        tonumber value = some jn →
        parseLocalVar (.node content children) = .ok (some (name, .num jn, "number"))) := by
  refine ⟨?_, ?_, ?_⟩
  · intro content children name value r hsplit hq hfn hbr hok
    simp only [parseLocalVar, hsplit, hq, hfn, hbr, Bool.false_eq_true, if_false, if_true] at hok
    cases htbl : parseLocalVarFields .nil children with
    | error e => rw [htbl] at hok; exact absurd hok (by simp)
    | ok tbl =>
      rw [htbl] at hok
      simp only [Except.ok.injEq, Option.some.injEq] at hok
      rw [← hok]
  · intro content children name value r hsplit hq hfn hbr hnum hnil hends hok
    simp only [parseLocalVar, hsplit, hq, hfn, hbr, hnum, Bool.false_eq_true, if_false] at hok
    rw [if_neg hnil] at hok
    have hcond : (endsWithStr value "\x7b\x7d" = true ∨ endsWithStr value "\x7b" = true) := hends
    rw [if_pos hcond] at hok
    cases htbl : parseLocalVarFields .nil children with
    | error e => rw [htbl] at hok; exact absurd hok (by simp)
    | ok tbl =>
      rw [htbl] at hok
      simp only [Except.ok.injEq, Option.some.injEq] at hok
      cases hnm : tblNameMatch content with
      | none => left; rw [← hok, hnm]
      | some nm => right; exact ⟨nm, by rw [← hok, hnm]⟩
  · intro content children name value jn hsplit hq hfn hbr hnum
    simp only [parseLocalVar, hsplit, hq, hfn, hbr, hnum, Bool.false_eq_true, if_false]

/-- Witness for C2: a value starting with `\x7b` decodes as a table, and a
plain numeric value decodes as a number. -/
theorem c2_value_rules_witness :
    ((parseLocalVar (tnode "t = \x7b" [tnode "a = 1" []])).map
      (fun o => o.map (fun r => r.2.2)) = .ok (some "table"))
    ∧ parseLocalVar (tnode "n = 4" []) = .ok (some ("n", .num (.finite ⟨4, 0⟩), "number")) := by
  constructor
  · have h := c2_value_rules.1 "t = \x7b" (.ofList [tnode "a = 1" []]) "t" "\x7b"
      ("t", .table (.ofList [("a", .num (.finite ⟨1, 0⟩))]), "table")
      (by decide) (by decide) (by decide) (by decide) rfl
    show (Except.ok (some (("t", JsValue.table (.ofList [("a", .num (.finite ⟨1, 0⟩))]),
      "table") : String × JsValue × String).2.2) : Except ParseErr (Option String))
      = .ok (some "table")
    rw [h]
  · exact c2_value_rules.2.2 "n = 4" .nil "n" "4" (.finite ⟨4, 0⟩)
      (by decide) (by decide) (by decide) (by decide) (by decide)

/-- Counterexample for C2 — `1 \x7b` ends with `\x7b` yet decodes as the
number 1 (the number rule precedes the ends-with-brace table rule), and a
value starting with `\x7b` that contains two quotes decodes as a string. -/
theorem c2_counterexample :
    parseLocalVar (tnode "x = 1 \x7b" []) = .ok (some ("x", .num (.finite ⟨1, 0⟩), "number"))
    ∧ endsWithStr "1 \x7b" "\x7b" = true
    ∧ "number" ≠ "table"
    ∧ parseLocalVar (tnode "y = \x7b\"a\"\x7d" []) = .ok (some ("y", .str "a", "string"))
    ∧ startsWithStr "\x7b\"a\"\x7d" "\x7b" = true :=
  ⟨rfl, by decide, by decide, rfl, by decide⟩

/-- Claim C3 (amended) — the TSM interpreter never returns a `CrashInfo` with
an empty error message or no frames: interpretation that completes with either
fails with `IncompleteCrashInfo`.  (The Blizzard interpreter performs no such
check; see the counterexample.) -/
theorem c3_incomplete :
    (∀ (t : LineTree) (ci : CrashInfo), tsmGetCrashInfo t = .ok ci →
        ci.errMsg ≠ "" ∧ ci.frames ≠ [])
    ∧ (∀ (t : LineTree) (ci : CrashInfo), tsmWalk ⟨"", [], []⟩ t.children = .ok ci →
        (ci.errMsg = "" ∨ ci.frames = []) →
        ∃ m, tsmGetCrashInfo t = .error (.incompleteCrashInfo m)) := by
  constructor
  · intro t ci hok
    cases hw : tsmWalk ⟨"", [], []⟩ t.children with
    | error e =>
      have : tsmGetCrashInfo t = .error e := by unfold tsmGetCrashInfo; rw [hw]
      rw [this] at hok
      exact absurd hok (by simp)
    | ok ci0 =>
      have hred : tsmGetCrashInfo t =
          (if ci0.errMsg = "" then
            .error (.incompleteCrashInfo "Could not find error message in crash file")
          else if ci0.frames.length = 0 then
            .error (.incompleteCrashInfo "Could not find frames in crash file")
          else .ok ci0) := by unfold tsmGetCrashInfo; rw [hw]
      rw [hred] at hok
      by_cases h1 : ci0.errMsg = ""
      · rw [if_pos h1] at hok; exact absurd hok (by simp)
      · rw [if_neg h1] at hok
        by_cases h2 : ci0.frames.length = 0
        · rw [if_pos h2] at hok; exact absurd hok (by simp)
        · rw [if_neg h2] at hok
          simp only [Except.ok.injEq] at hok
          subst hok
          exact ⟨h1, fun he => h2 (by rw [he]; rfl)⟩
  · intro t ci hw hbad
    have hred : tsmGetCrashInfo t =
        (if ci.errMsg = "" then
          .error (.incompleteCrashInfo "Could not find error message in crash file")
        else if ci.frames.length = 0 then
          .error (.incompleteCrashInfo "Could not find frames in crash file")
        else .ok ci) := by unfold tsmGetCrashInfo; rw [hw]
    rw [hred]
    rcases hbad with h1 | h2
    · exact ⟨"Could not find error message in crash file", by rw [if_pos h1]⟩
    · by_cases h1 : ci.errMsg = ""
      · exact ⟨"Could not find error message in crash file", by rw [if_pos h1]⟩
      · refine ⟨"Could not find frames in crash file", ?_⟩
        rw [if_neg h1, if_pos (by rw [h2]; rfl)]

/-- Witness for C3 on concrete trees: a complete TSM file passes both checks,
and a frameless walk fails with `IncompleteCrashInfo`. -/
theorem c3_incomplete_witness :
    ((tnode "" [tnode "Message: hi" [],
        tnode "Stack Trace:" [tnode "TSM/C.lua:1 <f>" []]] : LineTree) = tnode "" [tnode "Message: hi" [],
        tnode "Stack Trace:" [tnode "TSM/C.lua:1 <f>" []]])
    ∧ (⟨"hi", [⟨"f", "C.lua", .finite ⟨1, 0⟩, "TSM/C.lua:1", []⟩], []⟩ : CrashInfo).errMsg ≠ ""
    ∧ (⟨"hi", [⟨"f", "C.lua", .finite ⟨1, 0⟩, "TSM/C.lua:1", []⟩], []⟩ : CrashInfo).frames ≠ []
    ∧ (∃ m, tsmGetCrashInfo (tnode "" [tnode "Message: hi" []])
        = .error (.incompleteCrashInfo m)) := by
  have h1 := c3_incomplete.1 (tnode "" [tnode "Message: hi" [],
    tnode "Stack Trace:" [tnode "TSM/C.lua:1 <f>" []]])
    ⟨"hi", [⟨"f", "C.lua", .finite ⟨1, 0⟩, "TSM/C.lua:1", []⟩], []⟩ rfl
  have h2 := c3_incomplete.2 (tnode "" [tnode "Message: hi" []]) ⟨"hi", [], []⟩ rfl (Or.inr rfl)
  exact ⟨rfl, h1.1, h1.2, h2⟩

/-- Counterexample for C3 — the Blizzard interpreter happily returns a
`CrashInfo` with zero frames (and, on an empty tree, an empty error message). -/
theorem c3_counterexample :
    blizzardParse ["Message: boom"] = .ok ⟨"boom", [], []⟩
    ∧ blizzardGetCrashInfo (tnode "" []) = .ok ⟨"", [], []⟩ := ⟨rfl, rfl⟩

/-- Decomposition of the Blizzard heading loop over an append. -/
theorem blizzWalk_append (ci : CrashInfo) (xs ys : List LineTree) :
    blizzWalk ci (.ofList (xs ++ ys)) =
      match blizzWalk ci (.ofList xs) with
      | .error e => .error e
      | .ok ci' => blizzWalk ci' (.ofList ys) := by
  induction xs generalizing ci with
  | nil => rfl
  | cons x xs ih =>
    show blizzWalk ci (.cons x (.ofList (xs ++ ys))) = _
    simp only [blizzWalk, LineForest.ofList]
    cases hx : blizzProcessHeading ci x with
    | error e => rfl
    | ok ci' => exact ih ci'

/-- Claim C6 — a `Stack` section with no frame line, or whose first frame line
(after partial-path resolution) fails the addon-relative path pattern, makes
the Blizzard interpreter fail with `MalformedStackHeader`, and the whole
interpretation then produces no `CrashInfo`. -/
theorem c6_stack_header :
    (∀ (ci : CrashInfo) (h : LineTree) (hcontent : String),
        headingMatch h.content = some ("Stack", hcontent) →
        (h.children = .nil ∨
          (∀ c0 rest, h.children = .cons c0 rest →
            firstFrameMatch (resolveFirstFrame c0.content (.cons c0 rest)) = none)) →
        ∃ m, blizzProcessHeading ci h = .error (.malformedStackHeader m))
    ∧ (∀ (t : LineTree) (pre post : List LineTree) (h : LineTree) (hcontent : String)
        (acc : CrashInfo),
        t.children = .ofList (pre ++ h :: post) →
        blizzWalk ⟨"", [], []⟩ (.ofList pre) = .ok acc →
        headingMatch h.content = some ("Stack", hcontent) →
        (h.children = .nil ∨
          (∀ c0 rest, h.children = .cons c0 rest →
            firstFrameMatch (resolveFirstFrame c0.content (.cons c0 rest)) = none)) →
        ∃ m, blizzardGetCrashInfo t = .error (.malformedStackHeader m)) := by
  have conj1 : ∀ (ci : CrashInfo) (h : LineTree) (hcontent : String),
      headingMatch h.content = some ("Stack", hcontent) →
      (h.children = .nil ∨
        (∀ c0 rest, h.children = .cons c0 rest →
          firstFrameMatch (resolveFirstFrame c0.content (.cons c0 rest)) = none)) →
      ∃ m, blizzProcessHeading ci h = .error (.malformedStackHeader m) := by
    intro ci h hcontent hm hbad
    cases hch : h.children with
    | nil =>
      refine ⟨"Crash file has an empty stack", ?_⟩
      simp only [blizzProcessHeading, hm, hch]
      rw [if_neg (show ¬("Stack" = "Message") by decide)]
      simp
    | cons c0 rest =>
      have hff : firstFrameMatch (resolveFirstFrame c0.content (.cons c0 rest)) = none := by
        rcases hbad with hnil | hbadf
        · rw [hch] at hnil; exact absurd hnil (by simp)
        · exact hbadf c0 rest hch
      refine ⟨"Failed to parse first stack frame: "
        ++ resolveFirstFrame c0.content (.cons c0 rest), ?_⟩
      simp only [blizzProcessHeading, hm, hch, hff]
      rw [if_neg (show ¬("Stack" = "Message") by decide)]
      simp
  refine ⟨conj1, ?_⟩
  intro t pre post h hcontent acc hch hpre hm hbad
  obtain ⟨m, hmerr⟩ := conj1 acc h hcontent hm hbad
  refine ⟨m, ?_⟩
  unfold blizzardGetCrashInfo
  rw [hch, blizzWalk_append, hpre]
  show blizzWalk acc (.cons h (.ofList post)) = _
  simp only [blizzWalk, hmerr]

/-- Witness for C6 at a concrete crash file whose stack head is garbage. -/
theorem c6_stack_header_witness :
    ∃ m, blizzardGetCrashInfo
        (tnode "" [tnode "Message: boom" [], tnode "Stack:" [tnode "garbage" []]])
      = .error (.malformedStackHeader m) := by
  refine c6_stack_header.2
    (tnode "" [tnode "Message: boom" [], tnode "Stack:" [tnode "garbage" []]])
    [tnode "Message: boom" []] [] (tnode "Stack:" [tnode "garbage" []]) "" ⟨"boom", [], []⟩
    rfl rfl (by decide) (Or.inr ?_)
  intro c0 rest heq
  cases heq
  decide

/-- Decomposition of the TSM heading loop over an append. -/
theorem tsmWalk_append (ci : CrashInfo) (xs ys : List LineTree) :
    tsmWalk ci (.ofList (xs ++ ys)) =
      match tsmWalk ci (.ofList xs) with
      | .error e => .error e
      | .ok ci' => tsmWalk ci' (.ofList ys) := by
  induction xs generalizing ci with
  | nil => rfl
  | cons x xs ih =>
    show tsmWalk ci (.cons x (.ofList (xs ++ ys))) = _
    simp only [tsmWalk, LineForest.ofList]
    cases hx : tsmProcessHeading ci x with
    | error e => rfl
    | ok ci' => exact ih ci'

/-- A successful TSM interpretation is exactly a successful heading walk. -/
theorem tsmGetCrashInfo_ok {t : LineTree} {ci : CrashInfo}
    (hok : tsmGetCrashInfo t = .ok ci) : tsmWalk ⟨"", [], []⟩ t.children = .ok ci := by
  cases hw : tsmWalk ⟨"", [], []⟩ t.children with
  | error e =>
    have : tsmGetCrashInfo t = .error e := by unfold tsmGetCrashInfo; rw [hw]
    rw [this] at hok
    exact absurd hok (by simp)
  | ok ci0 =>
    have hred : tsmGetCrashInfo t =
        (if ci0.errMsg = "" then
          .error (.incompleteCrashInfo "Could not find error message in crash file")
        else if ci0.frames.length = 0 then
          .error (.incompleteCrashInfo "Could not find frames in crash file")
        else .ok ci0) := by unfold tsmGetCrashInfo; rw [hw]
    rw [hred] at hok
    by_cases h1 : ci0.errMsg = ""
    · rw [if_pos h1] at hok; exact absurd hok (by simp)
    · rw [if_neg h1] at hok
      by_cases h2 : ci0.frames.length = 0
      · rw [if_pos h2] at hok; exact absurd hok (by simp)
      · rw [if_neg h2] at hok
        simp only [Except.ok.injEq] at hok
        rw [hok]

/-- A successful TSM heading step away from `Message` / `Debug Log` headings
preserves the error message and the log lines respectively. -/
theorem tsmProcessHeading_preserve {ci : CrashInfo} {h : LineTree} {ci' : CrashInfo}
    (hok : tsmProcessHeading ci h = .ok ci') :
    ((headingMatch h.content).map Prod.fst ≠ some "Debug Log" → ci'.logLines = ci.logLines)
    ∧ ((headingMatch h.content).map Prod.fst ≠ some "Message" → ci'.errMsg = ci.errMsg) := by
  cases hm : headingMatch h.content with
  | none =>
    simp only [tsmProcessHeading, hm] at hok
    exact absurd hok (by simp)
  | some p =>
    obtain ⟨ty, c⟩ := p
    simp only [tsmProcessHeading, hm] at hok
    by_cases h1 : ty = "Message"
    · rw [if_pos h1] at hok
      simp only [Except.ok.injEq] at hok
      subst hok
      exact ⟨fun _ => rfl, fun hne => absurd (by simp [h1]) hne⟩
    · rw [if_neg h1] at hok
      by_cases h2 : ty = "Stack Trace"
      · rw [if_pos h2] at hok
        cases hf : parseFrames h.children with
        | error e => rw [hf] at hok; exact absurd hok (by simp)
        | ok fs =>
          rw [hf] at hok
          simp only [Except.ok.injEq] at hok
          subst hok
          exact ⟨fun _ => rfl, fun _ => rfl⟩
      · rw [if_neg h2] at hok
        by_cases h3 : ty = "Debug Log"
        · rw [if_pos h3] at hok
          simp only [Except.ok.injEq] at hok
          subst hok
          exact ⟨fun hne => absurd (by simp [h3]) hne, fun _ => rfl⟩
        · rw [if_neg h3] at hok
          by_cases h4 : ignoredHeadings.contains ty = true
          · rw [if_pos h4] at hok
            simp only [Except.ok.injEq] at hok
            subst hok
            exact ⟨fun _ => rfl, fun _ => rfl⟩
          · rw [if_neg h4] at hok
            exact absurd hok (by simp)

/-- The `Debug Log` step stores the reversed child contents as `logLines`. -/
theorem tsmProcessHeading_debugLog {ci : CrashInfo} {h : LineTree} {c : String}
    (hm : headingMatch h.content = some ("Debug Log", c)) :
    tsmProcessHeading ci h = .ok { ci with logLines := h.children.contents.reverse } := by
  simp only [tsmProcessHeading, hm]
  rw [if_neg (show ¬("Debug Log" = "Message") by decide),
    if_neg (show ¬("Debug Log" = "Stack Trace") by decide)]
  simp

/-- The `Message` step overwrites `errMsg` with the stripped content. -/
theorem tsmProcessHeading_message {ci : CrashInfo} {h : LineTree} {c : String}
    (hm : headingMatch h.content = some ("Message", c)) :
    tsmProcessHeading ci h = .ok { ci with errMsg := stripTSM c } := by
  simp only [tsmProcessHeading, hm]
  simp

/-- Walk-level preservation of `logLines` / `errMsg` for the TSM interpreter. -/
theorem tsmWalk_preserve {ys : List LineTree} {ci ci' : CrashInfo}
    (h : tsmWalk ci (.ofList ys) = .ok ci') :
    ((∀ y ∈ ys, (headingMatch y.content).map Prod.fst ≠ some "Debug Log") →
      ci'.logLines = ci.logLines)
    ∧ ((∀ y ∈ ys, (headingMatch y.content).map Prod.fst ≠ some "Message") →
      ci'.errMsg = ci.errMsg) := by
  induction ys generalizing ci with
  | nil =>
    simp only [LineForest.ofList, tsmWalk, Except.ok.injEq] at h
    subst h
    exact ⟨fun _ => rfl, fun _ => rfl⟩
  | cons y ys ih =>
    simp only [LineForest.ofList, tsmWalk] at h
    cases hy : tsmProcessHeading ci y with
    | error e => rw [hy] at h; exact absurd h (by simp)
    | ok cm =>
      rw [hy] at h
      obtain ⟨ihl, ihe⟩ := ih h
      obtain ⟨pl, pe⟩ := tsmProcessHeading_preserve hy
      constructor
      · intro hall
        rw [ihl (fun y hy => hall y (by simp [hy])), pl (hall y (by simp))]
      · intro hall
        rw [ihe (fun y hy => hall y (by simp [hy])), pe (hall y (by simp))]

/-- Claim C8 — when a TSM crash file has a `Debug Log` heading (the last one,
when several occur), a successfully produced `CrashInfo` carries exactly the
reversal of that heading's child line contents as `logLines`. -/
theorem c8_debug_log :
    ∀ (t : LineTree) (pre post : List LineTree) (h : LineTree) (c : String) (ci : CrashInfo),
      t.children = .ofList (pre ++ h :: post) →
      headingMatch h.content = some ("Debug Log", c) →
      (∀ h' ∈ post, (headingMatch h'.content).map Prod.fst ≠ some "Debug Log") →
      tsmGetCrashInfo t = .ok ci →
      ci.logLines = (h.children.contents).reverse := by
  intro t pre post h c ci hch hm hpost hok
  have hw := tsmGetCrashInfo_ok hok
  rw [hch, tsmWalk_append] at hw
  cases hwp : tsmWalk ⟨"", [], []⟩ (.ofList pre) with
  | error e => rw [hwp] at hw; exact absurd hw (by simp)
  | ok a =>
    rw [hwp] at hw
    show ci.logLines = _
    have hstep := @tsmProcessHeading_debugLog a _ _ hm
    replace hw : tsmWalk a (.cons h (.ofList post)) = .ok ci := hw
    simp only [tsmWalk, hstep] at hw
    have := (tsmWalk_preserve hw).1 hpost
    rw [this]

/-- Witness for C8 on a complete concrete crash file. -/
theorem c8_debug_log_witness :
    (⟨"hi", [⟨"f", "C.lua", .finite ⟨1, 0⟩, "TSM/C.lua:1", []⟩], ["two", "one"]⟩
      : CrashInfo).logLines
      = ((tnode "Debug Log:" [tnode "one" [], tnode "two" []]).children.contents).reverse := by
  exact c8_debug_log
    (tnode "" [tnode "Message: hi" [], tnode "Stack Trace:" [tnode "TSM/C.lua:1 <f>" []],
      tnode "Debug Log:" [tnode "one" [], tnode "two" []]])
    [tnode "Message: hi" [], tnode "Stack Trace:" [tnode "TSM/C.lua:1 <f>" []]] []
    (tnode "Debug Log:" [tnode "one" [], tnode "two" []]) "" _
    rfl (by decide) (by intro h' hmem; cases hmem) rfl

/-- The Blizzard `Message` step overwrites `errMsg` with the stripped content. -/
theorem blizzProcessHeading_message {ci : CrashInfo} {h : LineTree} {c : String}
    (hm : headingMatch h.content = some ("Message", c)) :
    blizzProcessHeading ci h = .ok { ci with errMsg := stripTSM c } := by
  simp only [blizzProcessHeading, hm]
  simp

/-- A successful Blizzard heading step away from `Message` preserves the
error message. -/
theorem blizzProcessHeading_errMsg {ci : CrashInfo} {h : LineTree} {ci' : CrashInfo}
    (hok : blizzProcessHeading ci h = .ok ci')
    (hne : (headingMatch h.content).map Prod.fst ≠ some "Message") :
    ci'.errMsg = ci.errMsg := by
  cases hm : headingMatch h.content with
  | none =>
    simp only [blizzProcessHeading, hm] at hok
    exact absurd hok (by simp)
  | some p =>
    obtain ⟨ty, c⟩ := p
    rw [hm] at hne
    simp only [blizzProcessHeading, hm] at hok
    by_cases h1 : ty = "Message"
    · exact absurd (by simp [h1]) hne
    · rw [if_neg h1] at hok
      by_cases h2 : ty = "Stack"
      · rw [if_pos h2] at hok
        cases hch : h.children with
        | nil => simp only [hch] at hok; exact absurd hok (by simp)
        | cons c0 rest =>
          simp only [hch] at hok
          cases hff : firstFrameMatch (resolveFirstFrame c0.content (.cons c0 rest)) with
          | none => simp only [hff] at hok; exact absurd hok (by simp)
          | some trip =>
            obtain ⟨ap, fp, ln⟩ := trip
            simp only [hff] at hok
            cases hbf : blizzFrames ap rest with
            | error e => simp only [hbf] at hok; exact absurd hok (by simp)
            | ok fs =>
              simp only [hbf, Except.ok.injEq] at hok
              subst hok
              rfl
      · rw [if_neg h2] at hok
        by_cases h3 : ty = "Locals"
        · rw [if_pos h3] at hok
          simp only [Except.ok.injEq] at hok
          subst hok
          rfl
        · rw [if_neg h3] at hok
          exact absurd hok (by simp)

/-- Walk-level preservation of `errMsg` for the Blizzard interpreter. -/
theorem blizzWalk_errMsg {ys : List LineTree} {ci ci' : CrashInfo}
    (h : blizzWalk ci (.ofList ys) = .ok ci')
    (hall : ∀ y ∈ ys, (headingMatch y.content).map Prod.fst ≠ some "Message") :
    ci'.errMsg = ci.errMsg := by
  induction ys generalizing ci with
  | nil =>
    simp only [LineForest.ofList, blizzWalk, Except.ok.injEq] at h
    subst h
    rfl
  | cons y ys ih =>
    simp only [LineForest.ofList, blizzWalk] at h
    cases hy : blizzProcessHeading ci y with
    | error e => rw [hy] at h; exact absurd h (by simp)
    | ok cm =>
      rw [hy] at h
      rw [ih h (fun y hmem => hall y (by simp [hmem]))]
      exact blizzProcessHeading_errMsg hy (hall y (by simp))

/-- Claim C10 — duplicated `Message` headings do not fail interpretation:
each occurrence overwrites `errMsg`, so a successfully produced `CrashInfo`
carries the stripped content of the last `Message` heading; this holds for
both interpreters. -/
theorem c10_last_message :
    (∀ (t : LineTree) (pre post : List LineTree) (h : LineTree) (c : String) (ci : CrashInfo),
        t.children = .ofList (pre ++ h :: post) →
        headingMatch h.content = some ("Message", c) →
        (∀ h' ∈ post, (headingMatch h'.content).map Prod.fst ≠ some "Message") →
        tsmGetCrashInfo t = .ok ci →
        ci.errMsg = stripTSM c)
    ∧ (∀ (t : LineTree) (pre post : List LineTree) (h : LineTree) (c : String) (ci : CrashInfo),
        t.children = .ofList (pre ++ h :: post) →
        headingMatch h.content = some ("Message", c) →
        (∀ h' ∈ post, (headingMatch h'.content).map Prod.fst ≠ some "Message") →
        blizzardGetCrashInfo t = .ok ci →
        ci.errMsg = stripTSM c) := by
  constructor
  · intro t pre post h c ci hch hm hpost hok
    have hw := tsmGetCrashInfo_ok hok
    rw [hch, tsmWalk_append] at hw
    cases hwp : tsmWalk ⟨"", [], []⟩ (.ofList pre) with
    | error e => rw [hwp] at hw; exact absurd hw (by simp)
    | ok a =>
      rw [hwp] at hw
      replace hw : tsmWalk a (.cons h (.ofList post)) = .ok ci := hw
      simp only [tsmWalk, @tsmProcessHeading_message a _ _ hm] at hw
      exact (tsmWalk_preserve hw).2 hpost
  · intro t pre post h c ci hch hm hpost hok
    unfold blizzardGetCrashInfo at hok
    rw [hch, blizzWalk_append] at hok
    cases hwp : blizzWalk ⟨"", [], []⟩ (.ofList pre) with
    | error e => rw [hwp] at hok; exact absurd hok (by simp)
    | ok a =>
      rw [hwp] at hok
      replace hok : blizzWalk a (.cons h (.ofList post)) = .ok ci := hok
      simp only [blizzWalk, @blizzProcessHeading_message a _ _ hm] at hok
      exact blizzWalk_errMsg hok hpost

/-- Witness for C10: concrete crash files with two `Message` headings succeed
and report the last message (prefix-stripped) for both interpreters. -/
theorem c10_last_message_witness :
    (⟨"second", [⟨"f", "C.lua", .finite ⟨1, 0⟩, "TSM/C.lua:1", []⟩], []⟩
        : CrashInfo).errMsg = stripTSM "second"
    ∧ (⟨"b", [], []⟩ : CrashInfo).errMsg = stripTSM "b" := by
  constructor
  · exact c10_last_message.1
      (tnode "" [tnode "Message: TSM/first" [], tnode "Message: second" [],
        tnode "Stack Trace:" [tnode "TSM/C.lua:1 <f>" []]])
      [tnode "Message: TSM/first" []] [tnode "Stack Trace:" [tnode "TSM/C.lua:1 <f>" []]]
      (tnode "Message: second" []) "second" _
      rfl (by decide) (by decide) rfl
  · exact c10_last_message.2
      (tnode "" [tnode "Message: a" [], tnode "Message: b" []])
      [tnode "Message: a" []] [] (tnode "Message: b" []) "b" _
      rfl (by decide) (by decide) rfl

/-! ## Claim C4: failure conditions of the TSM tree builder -/

/-- Nonempty string concatenations are not the empty string. -/
theorem str_append_ne_empty (s t : String) (h : s.data ≠ []) : s ++ t ≠ "" := by
  intro he
  apply h
  have := congrArg String.data he
  rw [String.data_append] at this
  exact (List.append_eq_nil.mp this).1

/-- On a line with a non-space character, the line regex captures exactly the
leading spaces and the remainder. -/
theorem lineMatch_nonspace {l : String} (h : ∃ c ∈ l.toList, c ≠ ' ') :
    lineMatch l = some ((l.toList.takeWhile (· = ' ')).length,
      String.mk (l.toList.dropWhile (· = ' '))) := by
  obtain ⟨c, hc, hne⟩ := h
  have hN : l.toList.isEmpty = false := by
    cases hl : l.toList with
    | nil => rw [hl] at hc; cases hc
    | cons a as => rfl
  have hd : (l.toList.dropWhile (· = ' ')).isEmpty = false := by
    cases hdw : l.toList.dropWhile (· = ' ') with
    | nil =>
      exfalso
      exact hne (by simpa using List.dropWhile_eq_nil_iff.mp hdw c hc)
    | cons a as => rfl
  simp only [lineMatch, hN, hd, Bool.false_eq_true, if_false]

/-- Every error of the tree-builder step is a `MalformedIndentation`. -/
theorem tsmStep_err {st : TreeSt} {l : String} {e : ParseErr}
    (h : tsmStep st l = .error e) : ∃ m, e = .malformedIndentation m := by
  unfold tsmStep at h
  repeat' split at h
  all_goals first
    | (exact ⟨_, ((Except.error.injEq _ _).mp h).symm⟩)
    | (exact absurd h (by simp))

/-- A successful tree-builder step records the line's level as the new
`currentLevel`. -/
theorem tsmStep_ok_level {st : TreeSt} {l : String} {st' : TreeSt} {nsp : Nat} {c : String}
    (hl : lineMatch l = some (nsp, c)) (h : tsmStep st l = .ok st') :
    st'.currentLevel = nsp / 2 := by
  unfold tsmStep at h
  rw [hl] at h
  repeat' split at h
  all_goals cases h
  all_goals (try injections)
  all_goals subst_vars
  all_goals simp
  all_goals omega

/-- Nonempty three-part string concatenations are not the empty string. -/
theorem str_app3_ne (a b c : String) (h : a.data ≠ []) : a ++ b ++ c ≠ "" :=
  str_append_ne_empty (a ++ b) c
    (by rw [String.data_append]; exact fun hg => h (List.append_eq_nil.mp hg).1)

/-- The dedent walk succeeds whenever enough ancestors are on the chain, and
shortens the chain by exactly the walked distance. -/
theorem popFrames_some : ∀ {n : Nat} {top : Frame} {rest : List Frame}, n ≤ rest.length →
    ∃ t' r', popFrames n top rest = some (t', r') ∧ r'.length + n = rest.length := by
  intro n
  induction n with
  | zero => exact fun h => ⟨_, _, rfl, by omega⟩
  | succ n ih =>
    intro top rest h
    cases rest with
    | nil => simp at h
    | cons f r =>
      obtain ⟨c2, cs2⟩ := f
      obtain ⟨t', r', hpf, hlen⟩ := @ih (c2, cs2.push (.node top.1 top.2)) r
        (by simp at h; omega)
      refine ⟨t', r', ?_, by simp at hlen ⊢; omega⟩
      simp only [popFrames, closeFrame]
      exact hpf

/-- Under the chain invariant `currentLevel ≤ rest.length`, a tree-builder
step preserves the invariant and never throws the anonymous `Error()` of the
parent walk. -/
theorem tsmStep_good {st : TreeSt} {l : String} (hok : st.currentLevel ≤ st.rest.length) :
    (∀ st', tsmStep st l = .ok st' → st'.currentLevel ≤ st'.rest.length) ∧
    tsmStep st l ≠ .error (.malformedIndentation "") := by
  cases hlm : lineMatch l with
  | none =>
    have hstep : tsmStep st l
        = .error (.malformedIndentation ("Invalid crash file line: \x27" ++ l ++ "\x27")) := by
      simp only [tsmStep, hlm]
    rw [hstep]
    refine ⟨fun st' h => absurd h (by simp), fun h => ?_⟩
    injection h with h2
    injection h2 with h3
    exact str_app3_ne "Invalid crash file line: \x27" l "\x27" (by decide) h3
  | some p =>
    obtain ⟨nsp, content⟩ := p
    by_cases hodd : nsp % 2 ≠ 0
    · have hstep : tsmStep st l = .error (.malformedIndentation
          ("Invalid crash file line indentation: " ++ Nat.repr nsp ++ " spaces")) := by
        simp only [tsmStep, hlm]
        rw [if_pos hodd]
      rw [hstep]
      refine ⟨fun st' h => absurd h (by simp), fun h => ?_⟩
      injection h with h2
      injection h2 with h3
      exact str_app3_ne "Invalid crash file line indentation: " (Nat.repr nsp) " spaces"
        (by decide) h3
    · by_cases h0 : nsp / 2 = 0
      · have hstep : tsmStep st l = .ok ⟨(content, .nil),
            [((closeAll st.top st.rest).content, (closeAll st.top st.rest).children)], 0⟩ := by
          simp only [tsmStep, hlm]
          rw [if_neg hodd, if_pos h0]
        rw [hstep]
        refine ⟨fun st' h => ?_, by simp⟩
        injection h with h2
        rw [← h2]
        exact Nat.zero_le _
      · by_cases hsib : nsp / 2 = st.currentLevel
        · cases hrest : st.rest with
          | nil =>
            exfalso
            rw [hrest] at hok
            simp at hok
            omega
          | cons f r =>
            obtain ⟨c2, cs2⟩ := f
            have hstep : tsmStep st l = .ok ⟨(content, .nil),
                (c2, cs2.push (.node st.top.1 st.top.2)) :: r, nsp / 2⟩ := by
              simp only [tsmStep, hlm, hrest]
              rw [if_neg hodd, if_neg h0, if_pos hsib]
              rfl
            rw [hstep]
            refine ⟨fun st' h => ?_, by simp⟩
            injection h with h2
            rw [← h2]
            show nsp / 2 ≤ r.length + 1
            have := congrArg List.length hrest
            simp at this
            omega
        · by_cases hchild : nsp / 2 = st.currentLevel + 1
          · have hstep : tsmStep st l
                = .ok ⟨(content, .nil), st.top :: st.rest, nsp / 2⟩ := by
              simp only [tsmStep, hlm]
              rw [if_neg hodd, if_neg h0, if_neg hsib, if_pos hchild]
            rw [hstep]
            refine ⟨fun st' h => ?_, by simp⟩
            injection h with h2
            rw [← h2]
            show nsp / 2 ≤ st.rest.length + 1
            omega
          · by_cases hlt : nsp / 2 < st.currentLevel
            · obtain ⟨t', r', hpf, hlen⟩ :=
                @popFrames_some (st.currentLevel - nsp / 2) st.top st.rest (by omega)
              have hr' : 1 ≤ r'.length := by omega
              cases hrr : r' with
              | nil => rw [hrr] at hr'; simp at hr'
              | cons f2 r2 =>
                obtain ⟨c2, cs2⟩ := f2
                have hstep : tsmStep st l = .ok ⟨(content, .nil),
                    (c2, cs2.push (.node t'.1 t'.2)) :: r2, nsp / 2⟩ := by
                  simp only [tsmStep, hlm]
                  rw [if_neg hodd, if_neg h0, if_neg hsib, if_neg hchild, if_pos hlt, hpf, hrr]
                  rfl
                rw [hstep]
                refine ⟨fun st' h => ?_, by simp⟩
                injection h with h2
                rw [← h2]
                show nsp / 2 ≤ r2.length + 1
                have := congrArg List.length hrr
                simp at this
                omega
            · have hstep : tsmStep st l = .error (.malformedIndentation
                  ("Invalid crash file line: " ++ l)) := by
                simp only [tsmStep, hlm]
                rw [if_neg hodd, if_neg h0, if_neg hsib, if_neg hchild, if_neg hlt]
              rw [hstep]
              refine ⟨fun st' h => absurd h (by simp), fun h => ?_⟩
              injection h with h2
              injection h2 with h3
              exact str_append_ne_empty "Invalid crash file line: " l (by decide) h3

/-- A line with odd captured leading-space count makes the step fail. -/
theorem tsmStep_odd {st : TreeSt} {l : String} {nsp : Nat} {c : String}
    (hl : lineMatch l = some (nsp, c)) (hodd : nsp % 2 = 1) :
    tsmStep st l = .error (.malformedIndentation
      ("Invalid crash file line indentation: " ++ Nat.repr nsp ++ " spaces")) := by
  simp only [tsmStep, hl]
  rw [if_pos (by omega)]

/-- A level jump of more than one makes the step fail. -/
theorem tsmStep_jump {st : TreeSt} {l : String} {nsp : Nat} {c : String}
    (hl : lineMatch l = some (nsp, c)) (heven : nsp % 2 = 0)
    (hjump : st.currentLevel + 1 < nsp / 2) :
    tsmStep st l = .error (.malformedIndentation ("Invalid crash file line: " ++ l)) := by
  simp only [tsmStep, hl]
  rw [if_neg (by omega), if_neg (by omega), if_neg (by omega), if_neg (by omega),
    if_neg (by omega)]

/-- Any input containing a non-blank line with an odd leading-space count
fails the whole build. -/
theorem tsmGo_odd {lines : List String}
    (hbad : ∃ l ∈ lines, (∃ ch ∈ l.toList, ch ≠ ' ')
      ∧ (l.toList.takeWhile (· = ' ')).length % 2 = 1) :
    ∀ st, ∃ m, tsmGo st lines = .error (.malformedIndentation m) := by
  induction lines with
  | nil => obtain ⟨l, hmem, _⟩ := hbad; cases hmem
  | cons l0 ls ih =>
    intro st
    obtain ⟨l, hmem, hns, hodd⟩ := hbad
    rcases List.mem_cons.mp hmem with heq | htail
    · subst heq
      have hstep := @tsmStep_odd st _ _ _ (lineMatch_nonspace hns) hodd
      exact ⟨"Invalid crash file line indentation: "
        ++ Nat.repr ((l.toList.takeWhile (· = ' ')).length) ++ " spaces",
        by simp only [tsmGo, hstep]⟩
    · cases hstep : tsmStep st l0 with
      | error e =>
        obtain ⟨m, hm⟩ := tsmStep_err hstep
        exact ⟨m, by simp only [tsmGo, hstep, hm]⟩
      | ok st' =>
        obtain ⟨m, hm⟩ := ih ⟨l, htail, hns, hodd⟩ st'
        exact ⟨m, by simp only [tsmGo, hstep]; exact hm⟩

/-- Any input containing two consecutive non-blank lines whose levels jump by
more than one fails the whole build. -/
theorem tsmGo_jump {l1 l2 : String}
    (h1 : ∃ ch ∈ l1.toList, ch ≠ ' ') (h2 : ∃ ch ∈ l2.toList, ch ≠ ' ')
    (hjump : (l1.toList.takeWhile (· = ' ')).length / 2 + 1
      < (l2.toList.takeWhile (· = ' ')).length / 2) :
    ∀ (pre rest : List String) (st : TreeSt),
      ∃ m, tsmGo st (pre ++ l1 :: l2 :: rest) = .error (.malformedIndentation m) := by
  intro pre
  induction pre with
  | nil =>
    intro rest st
    show ∃ m, tsmGo st (l1 :: l2 :: rest) = _
    cases hstep : tsmStep st l1 with
    | error e =>
      obtain ⟨m, hm⟩ := tsmStep_err hstep
      exact ⟨m, by simp only [tsmGo, hstep, hm]⟩
    | ok st1 =>
      have hlev : st1.currentLevel = (l1.toList.takeWhile (· = ' ')).length / 2 :=
        tsmStep_ok_level (lineMatch_nonspace h1) hstep
      by_cases hodd2 : (l2.toList.takeWhile (· = ' ')).length % 2 = 1
      · have hstep2 := @tsmStep_odd st1 _ _ _ (lineMatch_nonspace h2) hodd2
        exact ⟨"Invalid crash file line indentation: "
          ++ Nat.repr ((l2.toList.takeWhile (· = ' ')).length) ++ " spaces",
          by simp only [tsmGo, hstep, hstep2]⟩
      · have hstep2 := @tsmStep_jump st1 _ _ _ (lineMatch_nonspace h2)
          (by omega) (by omega)
        exact ⟨"Invalid crash file line: " ++ l2, by simp only [tsmGo, hstep, hstep2]⟩
  | cons p ps ih =>
    intro rest st
    show ∃ m, tsmGo st (p :: (ps ++ l1 :: l2 :: rest)) = _
    cases hstep : tsmStep st p with
    | error e =>
      obtain ⟨m, hm⟩ := tsmStep_err hstep
      exact ⟨m, by simp only [tsmGo, hstep, hm]⟩
    | ok st' =>
      obtain ⟨m, hm⟩ := ih rest st'
      exact ⟨m, by simp only [tsmGo, hstep]; exact hm⟩

/-- The anonymous `Error()` of the parent walk can never surface. -/
theorem tsmGo_no_anon : ∀ (lines : List String) (st : TreeSt),
    st.currentLevel ≤ st.rest.length →
    tsmGo st lines ≠ .error (.malformedIndentation "") := by
  intro lines
  induction lines with
  | nil => intro st _ h; simp [tsmGo] at h
  | cons l ls ih =>
    intro st hok h
    cases hstep : tsmStep st l with
    | error e =>
      rw [show tsmGo st (l :: ls) = .error e by simp only [tsmGo, hstep]] at h
      injection h with h2
      exact (tsmStep_good hok).2 (by rw [hstep, h2])
    | ok st' =>
      rw [show tsmGo st (l :: ls) = tsmGo st' ls by simp only [tsmGo, hstep]] at h
      exact ih st' ((tsmStep_good hok).1 st' hstep) h

/-- Claim C4 (amended) — the TSM tree builder fails with
`MalformedIndentation` for every input containing a line with a non-space
character and an odd leading-space count, and for every input with two
consecutive such lines whose levels jump by more than one; the dedent walk
can never run off the root (its anonymous error is unreachable).  All-space
lines are matched with one space as content (count = length − 1), so an
odd-length all-space line does not trigger the odd-count failure. -/
theorem c4_malformed :
    (∀ (lines : List String) (l : String), l ∈ lines →
        (∃ ch ∈ l.toList, ch ≠ ' ') → (l.toList.takeWhile (· = ' ')).length % 2 = 1 →
        ∃ m, tsmCreateTree lines = .error (.malformedIndentation m))
    ∧ (∀ (pre rest : List String) (l1 l2 : String),
        (∃ ch ∈ l1.toList, ch ≠ ' ') → (∃ ch ∈ l2.toList, ch ≠ ' ') →
        (l1.toList.takeWhile (· = ' ')).length / 2 + 1
          < (l2.toList.takeWhile (· = ' ')).length / 2 →
        ∃ m, tsmCreateTree (pre ++ l1 :: l2 :: rest) = .error (.malformedIndentation m))
    ∧ (∀ lines : List String, tsmCreateTree lines ≠ .error (.malformedIndentation "")) := by
  refine ⟨?_, ?_, ?_⟩
  · intro lines l hmem hns hodd
    exact tsmGo_odd ⟨l, hmem, hns, hodd⟩ _
  · intro pre rest l1 l2 ha hb hj
    exact tsmGo_jump ha hb hj pre rest _
  · intro lines
    exact tsmGo_no_anon lines _ (Nat.le_refl 0)

/-- Witness for C4 at concrete malformed inputs. -/
theorem c4_malformed_witness :
    (∃ m, tsmCreateTree [" a"] = .error (.malformedIndentation m))
    ∧ (∃ m, tsmCreateTree ["a", "    b"] = .error (.malformedIndentation m))
    ∧ tsmCreateTree ["a"] ≠ .error (.malformedIndentation "") :=
  ⟨c4_malformed.1 [" a"] " a" (by decide) ⟨'a', by decide, by decide⟩ (by decide),
   c4_malformed.2.1 [] [] "a" "    b" ⟨'a', by decide, by decide⟩
     ⟨'b', by decide, by decide⟩ (by decide),
   c4_malformed.2.2 ["a"]⟩

/-- Counterexample for C4 — the all-space line `"   "` has an odd
leading-space count (3), yet the build succeeds: the backtracking line regex
captures only 2 spaces and a single-space content. -/
theorem c4_counterexample :
    (tsmCreateTree ["a", "   "]).isOk = true
    ∧ ("   ".toList.takeWhile (· = ' ')).length % 2 = 1 := by decide

/-! ## Claim C1: correctness of the TSM tree builder on consistent input -/

/-- Indentation consistency from a previous level: every line has a non-space
character, an even leading-space count, and a level at most one above the
previous line's level. -/
def consistentFrom : Int → List String → Bool
  | _, [] => true
  | prev, l :: ls =>
    l.toList.any (fun c => c ≠ ' ') &&
    ((l.toList.takeWhile (· = ' ')).length % 2 == 0) &&
    decide (((((l.toList.takeWhile (· = ' ')).length / 2 : Nat)) : Int) ≤ prev + 1) &&
    consistentFrom (((l.toList.takeWhile (· = ' ')).length / 2 : Nat) : Int) ls

/-- Indentation-consistent input: the synthetic root sits at level −1, so the
first line must be at level 0. -/
def indentConsistent (lines : List String) : Bool := consistentFrom (-1) lines

/-- The `(content, depth)` pair recorded for one input line. -/
def linePair (l : String) : String × Nat :=
  (String.mk (l.toList.dropWhile (· = ' ')), (l.toList.takeWhile (· = ' ')).length / 2)

theorem dfsF_push : ∀ (f : LineForest) (t : LineTree) (d : Nat),
    dfsF d (f.push t) = dfsF d f ++ dfsT d t
  | .nil, t, d => by simp [LineForest.push, dfsF]
  | .cons t' ts, t, d => by
    simp only [LineForest.push, dfsF]
    rw [dfsF_push ts t d, List.append_assoc]

/-- Appending a finished tree to the children of the deepest open node adds
its traversal at the end of the flattened chain, at the chain's depth. -/
theorem closeAll_push : ∀ (r : List Frame) (c : String) (cs : LineForest) (t : LineTree),
    dfsF 0 (closeAll (c, cs.push t) r).children
      = dfsF 0 (closeAll (c, cs) r).children ++ dfsT r.length t
  | [], c, cs, t => by
    show dfsF 0 (cs.push t) = dfsF 0 cs ++ dfsT 0 t
    exact dfsF_push cs t 0
  | (c2, cs2) :: r', c, cs, t => by
    show dfsF 0 (closeAll (c2, cs2.push (.node c (cs.push t))) r').children
      = dfsF 0 (closeAll (c2, cs2.push (.node c cs)) r').children ++ dfsT (r'.length + 1) t
    rw [closeAll_push r' c2 cs2 (.node c (cs.push t)),
        closeAll_push r' c2 cs2 (.node c cs)]
    simp only [dfsT, dfsF_push, List.append_assoc, List.cons_append]

/-- Attaching the open node to its parent does not change the final tree. -/
theorem closeFrame_closeAll {top : Frame} {rest : List Frame} {t' : Frame}
    {r' : List Frame} (h : closeFrame top rest = some (t', r')) :
    closeAll t' r' = closeAll top rest := by
  obtain ⟨c, cs⟩ := top
  cases rest with
  | nil => simp [closeFrame] at h
  | cons f r =>
    obtain ⟨c2, cs2⟩ := f
    simp only [closeFrame, Option.some.injEq, Prod.mk.injEq] at h
    obtain ⟨h1, h2⟩ := h
    rw [← h1, ← h2]
    rfl

/-- The dedent walk does not change the final tree. -/
theorem popFrames_closeAll : ∀ {n : Nat} {top : Frame} {rest : List Frame} {t' : Frame}
    {r' : List Frame}, popFrames n top rest = some (t', r') →
    closeAll t' r' = closeAll top rest := by
  intro n
  induction n with
  | zero =>
    intro top rest t' r' h
    simp only [popFrames, Option.some.injEq, Prod.mk.injEq] at h
    rw [← h.1, ← h.2]
  | succ n ih =>
    intro top rest t' r' h
    cases rest with
    | nil => simp [popFrames, closeFrame] at h
    | cons f r =>
      obtain ⟨c2, cs2⟩ := f
      simp only [popFrames, closeFrame] at h
      rw [ih h]
      rfl

/-- Opening a fresh node at the top of the chain appends one `(content, d)`
pair to the flattened chain, at depth = length of the remaining chain. -/
theorem flatten_pushFrame (c : String) (f : Frame) (r : List Frame) :
    dfsF 0 (closeAll (c, .nil) (f :: r)).children
      = dfsF 0 (closeAll f r).children ++ [(c, r.length)] := by
  obtain ⟨c2, cs2⟩ := f
  show dfsF 0 (closeAll (c2, cs2.push (.node c .nil)) r).children = _
  rw [closeAll_push r c2 cs2 (.node c .nil)]
  rfl

/-- Main invariant of the tree builder: on consistent input the walk succeeds
and the flattened chain accumulates one `(content, level)` pair per line. -/
theorem tsmGo_consistent : ∀ (lines : List String) (st : TreeSt) (acc : List (String × Nat)),
    dfsF 0 (closeAll st.top st.rest).children = acc →
    st.rest.length = st.currentLevel + 1 →
    consistentFrom (st.currentLevel : Int) lines = true →
    ∃ rt, tsmGo st lines = .ok rt ∧
      dfsF 0 rt.children = acc ++ lines.map linePair := by
  intro lines
  induction lines with
  | nil =>
    intro st acc hacc hlen hcons
    exact ⟨closeAll st.top st.rest, rfl, by simp [hacc]⟩
  | cons l ls ih =>
    intro st acc hacc hlen hcons
    obtain ⟨⟨ct, cst⟩, rest0, cl⟩ := st
    simp only [TreeSt.top, TreeSt.rest, TreeSt.currentLevel] at hacc hlen hcons ⊢
    rw [consistentFrom] at hcons
    simp only [Bool.and_eq_true, beq_iff_eq, decide_eq_true_eq, List.any_eq_true,
      ne_eq] at hcons
    obtain ⟨⟨⟨hns, heven⟩, hle⟩, hrest⟩ := hcons
    have hns' : ∃ ch ∈ l.toList, ch ≠ ' ' := by
      obtain ⟨c, hc1, hc2⟩ := hns
      exact ⟨c, hc1, hc2⟩
    have hlm := @lineMatch_nonspace l hns'
    have hlp : linePair l = (String.mk (l.toList.dropWhile (· = ' ')),
        (l.toList.takeWhile (· = ' ')).length / 2) := rfl
    set nsp := (l.toList.takeWhile (· = ' ')).length with hnspdef
    set cont := String.mk (l.toList.dropWhile (· = ' ')) with hcontdef
    have hle' : nsp / 2 ≤ cl + 1 := by omega
    have hrest' : consistentFrom ((nsp / 2 : Nat) : Int) ls = true := hrest
    by_cases h0 : nsp / 2 = 0
    · have hstep : tsmStep ⟨(ct, cst), rest0, cl⟩ l = .ok
          ⟨(cont, .nil),
            [((closeAll (ct, cst) rest0).content, (closeAll (ct, cst) rest0).children)], 0⟩ := by
        simp only [tsmStep, hlm]
        rw [if_neg (by omega), if_pos h0]
      have hacc1 : dfsF 0 (closeAll (cont, LineForest.nil)
          [((closeAll (ct, cst) rest0).content, (closeAll (ct, cst) rest0).children)]).children
          = acc ++ [linePair l] := by
        rw [flatten_pushFrame]
        show dfsF 0 (closeAll (ct, cst) rest0).children ++ _ = _
        rw [hacc, hlp, h0]
        rfl
      obtain ⟨rt, hgo, hdfs⟩ := ih ⟨(cont, .nil),
          [((closeAll (ct, cst) rest0).content, (closeAll (ct, cst) rest0).children)], 0⟩
        (acc ++ [linePair l]) hacc1 rfl
        (by show consistentFrom ((0 : Nat) : Int) ls = true; rw [← h0]; exact hrest')
      refine ⟨rt, ?_, ?_⟩
      · show tsmGo _ (l :: ls) = .ok rt
        simp only [tsmGo, hstep]
        exact hgo
      · rw [hdfs, List.map_cons, List.append_assoc, List.singleton_append]
    · by_cases hsib : nsp / 2 = cl
      · cases hrest0 : rest0 with
        | nil => rw [hrest0] at hlen; simp at hlen
        | cons f r =>
          obtain ⟨c2, cs2⟩ := f
          have hstep : tsmStep ⟨(ct, cst), (c2, cs2) :: r, cl⟩ l = .ok
              ⟨(cont, .nil), (c2, cs2.push (.node ct cst)) :: r, nsp / 2⟩ := by
            simp only [tsmStep, hlm]
            rw [if_neg (by omega), if_neg h0, if_pos hsib]
            rfl
          have hr : r.length = cl := by
            rw [hrest0] at hlen
            simp only [List.length_cons] at hlen
            omega
          have hacc1 : dfsF 0 (closeAll (cont, LineForest.nil)
              ((c2, cs2.push (.node ct cst)) :: r)).children = acc ++ [linePair l] := by
            rw [flatten_pushFrame]
            show dfsF 0 (closeAll (ct, cst) ((c2, cs2) :: r)).children ++ _ = _
            rw [← hrest0, hacc, hlp, hr, hsib]
          obtain ⟨rt, hgo, hdfs⟩ := ih ⟨(cont, .nil),
              (c2, cs2.push (.node ct cst)) :: r, nsp / 2⟩
            (acc ++ [linePair l]) hacc1
            (by show r.length + 1 = nsp / 2 + 1; omega) hrest'
          refine ⟨rt, ?_, ?_⟩
          · show tsmGo _ (l :: ls) = .ok rt
            simp only [tsmGo, hstep]
            exact hgo
          · rw [hdfs, List.map_cons, List.append_assoc, List.singleton_append]
      · by_cases hchild : nsp / 2 = cl + 1
        · have hstep : tsmStep ⟨(ct, cst), rest0, cl⟩ l = .ok
              ⟨(cont, .nil), (ct, cst) :: rest0, nsp / 2⟩ := by
            simp only [tsmStep, hlm]
            rw [if_neg (by omega), if_neg h0, if_neg hsib, if_pos hchild]
          have hacc1 : dfsF 0 (closeAll (cont, LineForest.nil)
              ((ct, cst) :: rest0)).children = acc ++ [linePair l] := by
            rw [flatten_pushFrame, hacc, hlp, hlen, hchild]
          obtain ⟨rt, hgo, hdfs⟩ := ih ⟨(cont, .nil), (ct, cst) :: rest0, nsp / 2⟩
            (acc ++ [linePair l]) hacc1
            (by show rest0.length + 1 = nsp / 2 + 1; omega) hrest'
          refine ⟨rt, ?_, ?_⟩
          · show tsmGo _ (l :: ls) = .ok rt
            simp only [tsmGo, hstep]
            exact hgo
          · rw [hdfs, List.map_cons, List.append_assoc, List.singleton_append]
        · have hlt : nsp / 2 < cl := by omega
          obtain ⟨t1, r1, hpf, hlen1⟩ := @popFrames_some (cl - nsp / 2) (ct, cst) rest0 (by omega)
          have hr1len : r1.length = nsp / 2 + 1 := by omega
          cases hr1 : r1 with
          | nil => rw [hr1] at hr1len; simp at hr1len
          | cons f2 r2 =>
            obtain ⟨c2, cs2⟩ := f2
            obtain ⟨t1c, t1f⟩ := t1
            have hstep : tsmStep ⟨(ct, cst), rest0, cl⟩ l = .ok
                ⟨(cont, .nil), (c2, cs2.push (.node t1c t1f)) :: r2, nsp / 2⟩ := by
              simp only [tsmStep, hlm]
              rw [if_neg (by omega), if_neg h0, if_neg hsib, if_neg hchild, if_pos hlt,
                hpf, hr1]
              rfl
            have hr2 : r2.length = nsp / 2 := by
              rw [hr1] at hr1len
              simp only [List.length_cons] at hr1len
              omega
            have hacc1 : dfsF 0 (closeAll (cont, LineForest.nil)
                ((c2, cs2.push (.node t1c t1f)) :: r2)).children = acc ++ [linePair l] := by
              rw [flatten_pushFrame]
              show dfsF 0 (closeAll (t1c, t1f) ((c2, cs2) :: r2)).children ++ _ = _
              rw [← hr1, popFrames_closeAll hpf, hacc, hlp, hr2]
            obtain ⟨rt, hgo, hdfs⟩ := ih ⟨(cont, .nil),
                (c2, cs2.push (.node t1c t1f)) :: r2, nsp / 2⟩
              (acc ++ [linePair l]) hacc1
              (by show r2.length + 1 = nsp / 2 + 1; omega) hrest'
            refine ⟨rt, ?_, ?_⟩
            · show tsmGo _ (l :: ls) = .ok rt
              simp only [tsmGo, hstep]
              exact hgo
            · rw [hdfs, List.map_cons, List.append_assoc, List.singleton_append]

/-- **C1.** For every indentation-consistent input (each line has a non-space
character, an even leading-space count, and a level — spaces divided by two —
at most one above the previous line's, the first line at level 0), the TSM
tree builder succeeds and the depth-first traversal of the resulting tree
lists every line's stripped content in input order, each at depth equal to
half its leading-space count.  (The Blizzard builder does not satisfy this:
see the counterexample.) -/
theorem c1_tree_builder (lines : List String)
    (h : indentConsistent lines = true) :
    ∃ rt, tsmCreateTree lines = .ok rt ∧
      dfsF 0 rt.children = lines.map linePair := by
  cases lines with
  | nil => exact ⟨.node "" .nil, rfl, rfl⟩
  | cons l ls =>
    rw [indentConsistent, consistentFrom] at h
    simp only [Bool.and_eq_true, beq_iff_eq, decide_eq_true_eq, List.any_eq_true,
      ne_eq] at h
    obtain ⟨⟨⟨hns, heven⟩, hle⟩, hrest⟩ := h
    have hns' : ∃ ch ∈ l.toList, ch ≠ ' ' := by
      obtain ⟨c, hc1, hc2⟩ := hns
      exact ⟨c, hc1, hc2⟩
    have hlm := @lineMatch_nonspace l hns'
    have hlp : linePair l = (String.mk (l.toList.dropWhile (· = ' ')),
        (l.toList.takeWhile (· = ' ')).length / 2) := rfl
    set nsp := (l.toList.takeWhile (· = ' ')).length with hnspdef
    set cont := String.mk (l.toList.dropWhile (· = ' ')) with hcontdef
    have h0 : nsp / 2 = 0 := by omega
    have hstep : tsmStep ⟨("", .nil), [], 0⟩ l
        = .ok ⟨(cont, .nil), [("", .nil)], 0⟩ := by
      simp only [tsmStep, hlm]
      rw [if_neg (by omega), if_pos h0]
      rfl
    have hacc1 : dfsF 0 (closeAll (cont, LineForest.nil) [("", LineForest.nil)]).children
        = [linePair l] := by
      rw [flatten_pushFrame, hlp, h0]
      rfl
    obtain ⟨rt, hgo, hdfs⟩ := tsmGo_consistent ls ⟨(cont, .nil), [("", .nil)], 0⟩
      [linePair l] hacc1 rfl
      (by show consistentFrom ((0 : Nat) : Int) ls = true; rw [← h0]; exact hrest)
    refine ⟨rt, ?_, ?_⟩
    · show tsmGo _ (l :: ls) = .ok rt
      simp only [tsmGo, hstep]
      exact hgo
    · rw [hdfs, List.map_cons, List.singleton_append]

theorem c1_tree_builder_witness :
    indentConsistent ["Message: boom", "  frame one", "    x = 1", "  frame two"] = true ∧
    ∃ rt, tsmCreateTree ["Message: boom", "  frame one", "    x = 1", "  frame two"] = .ok rt ∧
      dfsF 0 rt.children
        = ["Message: boom", "  frame one", "    x = 1", "  frame two"].map linePair :=
  ⟨by decide,
    c1_tree_builder ["Message: boom", "  frame one", "    x = 1", "  frame two"] (by decide)⟩

/-- The Blizzard tree builder silently drops `Time:` lines, so on the
indentation-consistent input `["Time: 1"]` its traversal is empty rather than
the input line: the claim fails for "each format interpreter". -/
theorem c1_counterexample :
    indentConsistent ["Time: 1"] = true ∧
    (blizzardCreateTree ["Time: 1"]).map (fun rt => dfsF 0 rt.children) = .ok [] ∧
    ["Time: 1"].map linePair = [("Time: 1", 0)] := by decide

/-! ## C9: the response sort -/

/-- Tier of a name in the claimed ordering: bracketted (`[[`) names, then
names accepted by `Number()`, then the rest. -/
def brTier (v : Variable) : Nat :=
  if startsWithStr v.name "[[" then 0 else if (jsNumber v.name).isSome then 1 else 2

/-- The corrected plain-name order: case-insensitive comparison of the name
with its first `[` replaced by a space, ties broken case-sensitively. -/
def nameKeyLe (s t : String) : Bool :=
  match compareChars (lowerStr (replaceOnce s "[" " ")).toList
      (lowerStr (replaceOnce t "[" " ")).toList with
  | .lt => true
  | .gt => false
  | .eq => decide (compareChars (replaceOnce s "[" " ").toList
      (replaceOnce t "[" " ").toList ≠ .gt)

/-- The claimed response order (with the plain-name tier corrected): tiers
are non-decreasing, numeric names ascend by value, plain names follow
`nameKeyLe`. -/
def specVarLe (a b : Variable) : Bool :=
  decide (brTier a ≤ brTier b) &&
  (if brTier a = 1 ∧ brTier b = 1 then
     match jsNumber a.name, jsNumber b.name with
     | some x, some y => decide (cmpJsNum x y ≠ .gt)
     | _, _ => true
   else true) &&
  (if brTier a = 2 ∧ brTier b = 2 then nameKeyLe a.name b.name else true)

/-- `a` is at most `b` under the source comparator. -/
def varLe (a b : Variable) : Prop := cmpVars a b ≠ .gt

theorem compareChars_self : ∀ xs, compareChars xs xs = .eq
  | [] => rfl
  | x :: xs => by
    simp only [compareChars, lt_irrefl, if_false]
    exact compareChars_self xs

theorem compareChars_eq_iff : ∀ xs ys, compareChars xs ys = .eq ↔ xs = ys
  | [], [] => by simp [compareChars]
  | [], _ :: _ => by simp [compareChars]
  | _ :: _, [] => by simp [compareChars]
  | x :: xs, y :: ys => by
    simp only [compareChars]
    by_cases h1 : x < y
    · simp [h1, List.cons.injEq, ne_of_lt h1]
    · by_cases h2 : y < x
      · simp [h1, h2, List.cons.injEq, ne_of_gt h2]
      · have hxy : x = y := le_antisymm (not_lt.mp h2) (not_lt.mp h1)
        simp [h1, h2, hxy, compareChars_eq_iff xs ys]

theorem compareChars_swap : ∀ xs ys, compareChars ys xs = (compareChars xs ys).swap
  | [], [] => rfl
  | [], _ :: _ => rfl
  | _ :: _, [] => rfl
  | x :: xs, y :: ys => by
    simp only [compareChars]
    by_cases h1 : x < y
    · simp [h1, asymm h1, Ordering.swap]
    · by_cases h2 : y < x
      · simp [h1, h2, Ordering.swap]
      · simp [h1, h2, compareChars_swap xs ys]

theorem compareChars_le_trans : ∀ xs ys zs, compareChars xs ys ≠ .gt →
    compareChars ys zs ≠ .gt → compareChars xs zs ≠ .gt
  | [], ys, zs => by
    intro _ _
    cases zs <;> simp [compareChars]
  | x :: xs, [], zs => by
    intro h1 _
    exact absurd rfl h1
  | x :: xs, y :: ys, [] => by
    intro _ h2
    exact absurd rfl h2
  | x :: xs, y :: ys, z :: zs => by
    intro h1 h2
    simp only [compareChars] at h1 h2 ⊢
    by_cases hxy : x < y
    · by_cases hyz : y < z
      · rw [if_pos (lt_trans hxy hyz)]
        exact fun h => nomatch h
      · by_cases hzy : z < y
        · rw [if_neg hyz, if_pos hzy] at h2
          exact absurd rfl h2
        · have hyz' : y = z := le_antisymm (not_lt.mp hzy) (not_lt.mp hyz)
          rw [if_pos (hyz' ▸ hxy)]
          exact fun h => nomatch h
    · by_cases hyx : y < x
      · rw [if_neg hxy, if_pos hyx] at h1
        exact absurd rfl h1
      · have hxy' : x = y := le_antisymm (not_lt.mp hyx) (not_lt.mp hxy)
        subst hxy'
        rw [if_neg hxy, if_neg hyx] at h1
        by_cases hxz : x < z
        · rw [if_pos hxz]
          exact fun h => nomatch h
        · by_cases hzx : z < x
          · rw [if_neg hxz, if_pos hzx] at h2
            exact absurd rfl h2
          · rw [if_neg hxz, if_neg hzx] at h2 ⊢
            exact compareChars_le_trans xs ys zs h1 h2

theorem cmpDec_swap (a b : Dec) : cmpDec b a = (cmpDec a b).swap := by
  rw [cmpDec, cmpDec]
  rcases lt_trichotomy (a.man * 10 ^ b.exp) (b.man * 10 ^ a.exp) with h | h | h
  · rw [if_neg (asymm h), if_pos h, if_pos h]
    rfl
  · rw [if_neg (by omega), if_neg (by omega), if_neg (by omega), if_neg (by omega)]
    rfl
  · rw [if_pos h, if_neg (asymm h), if_pos h]
    rfl

theorem cmpDec_le_trans {a b c : Dec} (h1 : cmpDec a b ≠ .gt) (h2 : cmpDec b c ≠ .gt) :
    cmpDec a c ≠ .gt := by
  rw [cmpDec] at h1 h2 ⊢
  have hab : a.man * 10 ^ b.exp ≤ b.man * 10 ^ a.exp := by
    by_contra hc
    rw [if_neg (by omega), if_pos (by omega)] at h1
    exact h1 rfl
  have hbc : b.man * 10 ^ c.exp ≤ c.man * 10 ^ b.exp := by
    by_contra hc
    rw [if_neg (by omega), if_pos (by omega)] at h2
    exact h2 rfl
  have hac : a.man * 10 ^ c.exp ≤ c.man * 10 ^ a.exp := by
    have hp : (0 : Int) < 10 ^ b.exp := pow_pos (by norm_num) _
    have h1' : a.man * 10 ^ b.exp * 10 ^ c.exp ≤ b.man * 10 ^ a.exp * 10 ^ c.exp :=
      mul_le_mul_of_nonneg_right hab (by positivity)
    have h2' : b.man * 10 ^ c.exp * 10 ^ a.exp ≤ c.man * 10 ^ b.exp * 10 ^ a.exp :=
      mul_le_mul_of_nonneg_right hbc (by positivity)
    have hchain : a.man * 10 ^ c.exp * 10 ^ b.exp ≤ c.man * 10 ^ a.exp * 10 ^ b.exp := by
      calc a.man * 10 ^ c.exp * 10 ^ b.exp
          = a.man * 10 ^ b.exp * 10 ^ c.exp := by ring
        _ ≤ b.man * 10 ^ a.exp * 10 ^ c.exp := h1'
        _ = b.man * 10 ^ c.exp * 10 ^ a.exp := by ring
        _ ≤ c.man * 10 ^ b.exp * 10 ^ a.exp := h2'
        _ = c.man * 10 ^ a.exp * 10 ^ b.exp := by ring
    exact le_of_mul_le_mul_right hchain hp
  by_cases h : a.man * 10 ^ c.exp < c.man * 10 ^ a.exp
  · rw [if_pos h]
    exact fun hh => nomatch hh
  · rw [if_neg h, if_neg (by omega)]
    exact fun hh => nomatch hh

theorem cmpJsNum_swap : ∀ x y, cmpJsNum y x = (cmpJsNum x y).swap
  | .finite a, .finite b => cmpDec_swap a b
  | .finite _, .infinite nb => by cases nb <;> rfl
  | .infinite na, .finite _ => by cases na <;> rfl
  | .infinite na, .infinite nb => by cases na <;> cases nb <;> rfl

theorem cmpJsNum_le_trans (x y z : JsNum) (h1 : cmpJsNum x y ≠ .gt)
    (h2 : cmpJsNum y z ≠ .gt) : cmpJsNum x z ≠ .gt := by
  cases x with
  | finite a =>
    cases y with
    | finite b =>
      cases z with
      | finite c => exact cmpDec_le_trans h1 h2
      | infinite nc =>
        cases nc
        · simp [cmpJsNum]
        · simp [cmpJsNum] at h2
    | infinite nb =>
      cases nb
      · cases z with
        | finite c => simp [cmpJsNum] at h2
        | infinite nc =>
          cases nc
          · simp [cmpJsNum]
          · simp [cmpJsNum] at h2
      · simp [cmpJsNum] at h1
  | infinite na =>
    cases na
    · cases y with
      | finite b => simp [cmpJsNum] at h1
      | infinite nb =>
        cases nb
        · cases z with
          | finite c => simp [cmpJsNum] at h2
          | infinite nc =>
            cases nc
            · simp [cmpJsNum]
            · simp [cmpJsNum] at h2
        · simp [cmpJsNum] at h1
    · cases z with
      | finite c => simp [cmpJsNum]
      | infinite nc => cases nc <;> simp [cmpJsNum]

theorem strCase_le_trans (sL tL uL sN tN uN : String)
    (h1 : (if sL ≠ tL then compareChars sL.toList tL.toList
           else compareChars sN.toList tN.toList) ≠ .gt)
    (h2 : (if tL ≠ uL then compareChars tL.toList uL.toList
           else compareChars tN.toList uN.toList) ≠ .gt) :
    (if sL ≠ uL then compareChars sL.toList uL.toList
     else compareChars sN.toList uN.toList) ≠ .gt := by
  by_cases e1 : sL = tL
  · by_cases e2 : tL = uL
    · rw [if_neg (fun h => h e1)] at h1
      rw [if_neg (fun h => h e2)] at h2
      rw [if_neg (fun h => h (e1.trans e2))]
      exact compareChars_le_trans _ _ _ h1 h2
    · have e3 : sL ≠ uL := fun h => e2 (e1 ▸ h)
      rw [if_pos e2] at h2
      rw [if_pos e3, e1]
      exact h2
  · by_cases e2 : tL = uL
    · have e3 : sL ≠ uL := fun h => e1 (h.trans e2.symm)
      rw [if_pos e1] at h1
      rw [if_pos e3, ← e2]
      exact h1
    · rw [if_pos e1] at h1
      rw [if_pos e2] at h2
      have e3 : sL ≠ uL := by
        intro he
        rw [← he] at h2
        rw [compareChars_swap sL.toList tL.toList] at h2
        cases hco : compareChars sL.toList tL.toList with
        | lt => rw [hco] at h2; exact h2 rfl
        | eq => exact e1 (String.ext ((compareChars_eq_iff _ _).mp hco))
        | gt => rw [hco] at h1; exact h1 rfl
      rw [if_pos e3]
      exact compareChars_le_trans _ _ _ h1 h2

theorem cmpVars_swap (a b : Variable) : cmpVars b a = (cmpVars a b).swap := by
  simp only [cmpVars]
  cases hA : startsWithStr a.name "[[" <;> cases hB : startsWithStr b.name "[["
  · rw [if_neg (show ¬((false : Bool) ≠ false) from fun h => h rfl)]
    cases hna : jsNumber a.name <;> cases hnb : jsNumber b.name <;>
      simp only [hna, hnb]
    · by_cases hL : lowerStr (replaceOnce a.name "[" " ") = lowerStr (replaceOnce b.name "[" " ")
      · rw [if_neg (show ¬(lowerStr (replaceOnce b.name "[" " ")
              ≠ lowerStr (replaceOnce a.name "[" " ")) from fun h => h hL.symm),
          if_neg (show ¬(lowerStr (replaceOnce a.name "[" " ")
              ≠ lowerStr (replaceOnce b.name "[" " ")) from fun h => h hL)]
        exact compareChars_swap _ _
      · rw [if_pos (show lowerStr (replaceOnce b.name "[" " ")
              ≠ lowerStr (replaceOnce a.name "[" " ") from fun h => hL h.symm),
          if_pos hL]
        exact compareChars_swap _ _
    · rfl
    · rfl
    · exact cmpJsNum_swap _ _
  · simp [Ordering.swap]
  · simp [Ordering.swap]
  · rw [if_neg (show ¬((true : Bool) ≠ true) from fun h => h rfl)]
    cases hna : jsNumber a.name <;> cases hnb : jsNumber b.name <;>
      simp only [hna, hnb]
    · by_cases hL : lowerStr (replaceOnce a.name "[" " ") = lowerStr (replaceOnce b.name "[" " ")
      · rw [if_neg (show ¬(lowerStr (replaceOnce b.name "[" " ")
              ≠ lowerStr (replaceOnce a.name "[" " ")) from fun h => h hL.symm),
          if_neg (show ¬(lowerStr (replaceOnce a.name "[" " ")
              ≠ lowerStr (replaceOnce b.name "[" " ")) from fun h => h hL)]
        exact compareChars_swap _ _
      · rw [if_pos (show lowerStr (replaceOnce b.name "[" " ")
              ≠ lowerStr (replaceOnce a.name "[" " ") from fun h => hL h.symm),
          if_pos hL]
        exact compareChars_swap _ _
    · rfl
    · rfl
    · exact cmpJsNum_swap _ _

theorem cmpVars_le_trans (a b c : Variable) (h1 : cmpVars a b ≠ .gt)
    (h2 : cmpVars b c ≠ .gt) : cmpVars a c ≠ .gt := by
  simp only [cmpVars] at h1 h2 ⊢
  cases hA : startsWithStr a.name "[[" <;> cases hB : startsWithStr b.name "[[" <;>
    cases hC : startsWithStr c.name "[["
  · rw [hA, hB] at h1
    rw [hB, hC] at h2
    rw [if_neg (show ¬((false : Bool) ≠ false) from fun h => h rfl)] at h1 h2 ⊢
    cases hna : jsNumber a.name <;> cases hnb : jsNumber b.name <;>
        cases hnc : jsNumber c.name <;>
      simp only [hna, hnb] at h1 <;> simp only [hnb, hnc] at h2 <;> simp only [hna, hnc]
    all_goals first
      | exact absurd rfl h1
      | exact absurd rfl h2
      | exact fun h => Ordering.noConfusion h
      | exact cmpJsNum_le_trans _ _ _ h1 h2
      | exact strCase_le_trans _ _ _ _ _ _ h1 h2
  · rw [hB, hC] at h2
    simp at h2
  · rw [hA, hB] at h1
    simp at h1
  · rw [hA, hB] at h1
    simp at h1
  · simp
  · rw [hB, hC] at h2
    simp at h2
  · simp
  · rw [hA, hB] at h1
    rw [hB, hC] at h2
    rw [if_neg (show ¬((true : Bool) ≠ true) from fun h => h rfl)] at h1 h2 ⊢
    cases hna : jsNumber a.name <;> cases hnb : jsNumber b.name <;>
        cases hnc : jsNumber c.name <;>
      simp only [hna, hnb] at h1 <;> simp only [hnb, hnc] at h2 <;> simp only [hna, hnc]
    all_goals first
      | exact absurd rfl h1
      | exact absurd rfl h2
      | exact fun h => Ordering.noConfusion h
      | exact cmpJsNum_le_trans _ _ _ h1 h2
      | exact strCase_le_trans _ _ _ _ _ _ h1 h2

theorem nameKeyLe_of_cmp (s t : String)
    (h : (if lowerStr (replaceOnce s "[" " ") ≠ lowerStr (replaceOnce t "[" " ")
          then compareChars (lowerStr (replaceOnce s "[" " ")).toList
            (lowerStr (replaceOnce t "[" " ")).toList
          else compareChars (replaceOnce s "[" " ").toList
            (replaceOnce t "[" " ").toList) ≠ .gt) :
    nameKeyLe s t = true := by
  simp only [nameKeyLe]
  cases hc : compareChars (lowerStr (replaceOnce s "[" " ")).toList
      (lowerStr (replaceOnce t "[" " ")).toList with
  | lt => rfl
  | eq =>
    have hL : lowerStr (replaceOnce s "[" " ") = lowerStr (replaceOnce t "[" " ") :=
      String.ext ((compareChars_eq_iff _ _).mp hc)
    rw [if_neg (fun hh => hh hL)] at h
    simp
    exact h
  | gt =>
    have hL : lowerStr (replaceOnce s "[" " ") ≠ lowerStr (replaceOnce t "[" " ") := by
      intro he
      rw [he] at hc
      rw [compareChars_self] at hc
      cases hc
    rw [if_pos hL, hc] at h
    exact absurd rfl h

theorem varLe_spec (a b : Variable) (h : cmpVars a b ≠ .gt) : specVarLe a b = true := by
  simp only [cmpVars] at h
  simp only [specVarLe, brTier]
  by_cases hA : startsWithStr a.name "[[" = true <;>
    by_cases hB : startsWithStr b.name "[[" = true
  · simp [hA, hB]
  · simp [hA, hB, Nat.zero_le]
  · simp [hA, hB] at h
  · have hA' : startsWithStr a.name "[[" = false := by simpa using hA
    have hB' : startsWithStr b.name "[[" = false := by simpa using hB
    rw [hA', hB'] at h
    rw [if_neg (show ¬((false : Bool) ≠ false) from fun hh => hh rfl)] at h
    by_cases hsa : (jsNumber a.name).isSome = true <;>
      by_cases hsb : (jsNumber b.name).isSome = true
    · obtain ⟨x, hx⟩ := Option.isSome_iff_exists.mp hsa
      obtain ⟨y, hy⟩ := Option.isSome_iff_exists.mp hsb
      rw [hx, hy] at h
      simpa [hA', hB', hx, hy] using h
    · simp [hA', hB', hsa, hsb]
    · have hna : jsNumber a.name = none := Option.not_isSome_iff_eq_none.mp (by simpa using hsa)
      obtain ⟨y, hy⟩ := Option.isSome_iff_exists.mp hsb
      rw [hna, hy] at h
      exact absurd rfl h
    · have hna : jsNumber a.name = none := Option.not_isSome_iff_eq_none.mp (by simpa using hsa)
      have hnb : jsNumber b.name = none := Option.not_isSome_iff_eq_none.mp (by simpa using hsb)
      rw [hna, hnb] at h
      simp [hA', hB', hsa, hsb]
      exact nameKeyLe_of_cmp a.name b.name h

theorem insertVar_perm (x : Variable) : ∀ l, (insertVar x l).Perm (x :: l)
  | [] => List.Perm.refl _
  | y :: ys => by
    simp only [insertVar]
    by_cases h : cmpVars x y = .lt
    · rw [if_pos h]
    · rw [if_neg h]
      exact ((insertVar_perm x ys).cons y).trans (List.Perm.swap x y ys)

theorem insertVar_pairwise (x : Variable) : ∀ l, l.Pairwise varLe →
    (insertVar x l).Pairwise varLe
  | [], _ => by simp [insertVar, List.pairwise_cons]
  | y :: ys, h => by
    obtain ⟨hy, hys⟩ := List.pairwise_cons.mp h
    simp only [insertVar]
    by_cases hc : cmpVars x y = .lt
    · rw [if_pos hc]
      refine List.pairwise_cons.mpr ⟨?_, h⟩
      intro z hz
      have hxy : varLe x y := by
        rw [varLe, hc]
        exact fun hh => Ordering.noConfusion hh
      rcases List.mem_cons.mp hz with rfl | hz'
      · exact hxy
      · exact cmpVars_le_trans x y z hxy (hy z hz')
    · rw [if_neg hc]
      refine List.pairwise_cons.mpr ⟨?_, insertVar_pairwise x ys hys⟩
      intro z hz
      have hz' := (insertVar_perm x ys).mem_iff.mp hz
      rcases List.mem_cons.mp hz' with rfl | hz''
      · rw [varLe, cmpVars_swap]
        cases hco : cmpVars z y with
        | lt => exact absurd hco hc
        | eq => exact fun hh => Ordering.noConfusion hh
        | gt => exact fun hh => Ordering.noConfusion hh
      · exact hy z hz''

theorem foldl_insertVar_perm : ∀ (vs acc : List Variable),
    (vs.foldl (fun a x => insertVar x a) acc).Perm (acc ++ vs)
  | [], acc => by simp
  | v :: vs, acc => by
    rw [List.foldl_cons]
    refine (foldl_insertVar_perm vs (insertVar v acc)).trans ?_
    refine (List.Perm.append_right vs (insertVar_perm v acc)).trans ?_
    exact List.perm_middle.symm

theorem foldl_insertVar_pairwise : ∀ (vs acc : List Variable),
    acc.Pairwise varLe → (vs.foldl (fun a x => insertVar x a) acc).Pairwise varLe
  | [], _, h => h
  | v :: vs, acc, h => by
    rw [List.foldl_cons]
    exact foldl_insertVar_pairwise vs _ (insertVar_pairwise v acc h)

/-- **C9.** The sorted variables response is always a permutation of the
computed variables in which the claimed order holds pairwise: names starting
with `[[` come first, then names accepted by `Number()` in ascending numeric
order, then the remaining names — not in plain case-insensitive lexicographic
order, but ordered case-insensitively on the name with its first `[` replaced
by a space, ties broken case-sensitively (see the counterexample for the
difference). -/
theorem c9_sorted_response (vs : List Variable) :
    (jsSortVariables vs).Perm vs ∧
      (jsSortVariables vs).Pairwise (fun a b => specVarLe a b = true) := by
  constructor
  · have h := foldl_insertVar_perm vs []
    simpa [jsSortVariables] using h
  · have h := foldl_insertVar_pairwise vs [] (List.Pairwise.nil)
    rw [jsSortVariables]
    exact h.imp (fun hr => varLe_spec _ _ hr)

/-- The plain-name tier is not sorted case-insensitively on the raw name: the
comparator first replaces the first `[` with a space, so the sorted response
puts `x[y` before `x1y` even though `x1y` precedes `x[y` case-insensitively. -/
theorem c9_counterexample :
    jsSortVariables [nmVar "x1y", nmVar "x[y"] = [nmVar "x[y", nmVar "x1y"] ∧
    compareChars (lowerStr "x1y").toList (lowerStr "x[y").toList = .lt := ⟨rfl, rfl⟩
